import Mathlib

/-!
Verification of the two-stage registry pipeline of `scripts/validate.js`
and `scripts/build-bundle.js`: platform-field sanitization, cross-record
conflict detection, enrichment, and bundle assembly.  JavaScript objects
parsed from JSON are embedded as association lists of string keys and
`JsVal` values; `undefined` is represented by `JsVal.undef` (JSON.parse
never produces it inside an object, but property access on a missing key
yields it).
-/

set_option maxHeartbeats 1000000

namespace McpServers

/-- A JavaScript value as produced by `JSON.parse`, plus `undefined`
(the result of reading an absent property). Numbers are modelled as
integers; no claim depends on fractional values. -/
inductive JsVal where
  | undef : JsVal
  | null : JsVal
  | bool : Bool → JsVal
  | str : String → JsVal
  | num : Int → JsVal
  | arr : List JsVal → JsVal
  | obj : List (String × JsVal) → JsVal

/-- A JavaScript object: association list of fields in insertion order
(JSON.parse keeps source order and deduplicates keys). -/
abbrev JObj := List (String × JsVal)

/-- Reading a property of an object: `o[k]`, `undefined` when absent. -/
def objGet (o : JObj) (k : String) : JsVal :=
  match o.find? (fun kv => kv.1 == k) with
  | some kv => kv.2
  | none => JsVal.undef

/-- Property access `v[k]` on an arbitrary value: only objects carry
properties in this model (accessing fields of primitives yields
`undefined`, which is what every guarded access in the scripts sees). -/
def jsGet (v : JsVal) (k : String) : JsVal :=
  match v with
  | JsVal.obj fields => objGet fields k
  | _ => JsVal.undef

/-- Property assignment `o[k] = v`: overwrites in place when the key is
present (keeping its position, as JavaScript does), appends otherwise. -/
def objSet (o : JObj) (k : String) (v : JsVal) : JObj :=
  if o.any (fun kv => kv.1 == k) then
    o.map (fun kv => if kv.1 == k then (k, v) else kv)
  else
    o ++ [(k, v)]

/-- JavaScript truthiness of a value. -/
def truthyV : JsVal → Bool
  | JsVal.undef => false
  | JsVal.null => false
  | JsVal.bool b => b
  | JsVal.str s => !(s == "")
  | JsVal.num n => !(n == 0)
  | JsVal.arr _ => true
  | JsVal.obj _ => true

/-- Strict equality `v === true` of the source. -/
def isBoolTrue : JsVal → Bool
  | JsVal.bool true => true
  | _ => false

/-- Strict equality `v === s` against a string literal. -/
def isStrEq (v : JsVal) (s : String) : Bool :=
  match v with
  | JsVal.str x => x == s
  | _ => false

/-! ### validate.js: platform-field sanitizer -/

/-- Fields that contributors must not set (`PLATFORM_FIELDS` of
`scripts/validate.js`). -/
def PLATFORM_FIELDS : List String := ["badges", "stats", "sponsored", "featured"]

/-- The warning text emitted for one stripped field. -/
def warnMsg (field : String) (file : String) : String :=
  s!"  WARNING: \"{field}\" is a platform-managed field and will be stripped from {file}"

/-- Models `s.startsWith(p)` at the character level (`String.startsWith`
itself is byte-position based, which the kernel cannot evaluate). -/
def strStartsWith (s p : String) : Bool := p.data.isPrefixOf s.data

/-- Key `k` is present in object `o` (`data[k] !== undefined` for
JSON-parsed data). -/
def hasKey (o : JObj) (k : String) : Bool := o.any (fun kv => kv.1 == k)

/-- Deletes every entry with key `k` (`delete data[k]`; JSON objects have
unique keys, so at most one entry is ever removed). -/
def deleteKey (o : JObj) (k : String) : JObj := o.filter (fun kv => !(kv.1 == k))

/-- First loop of `stripPlatformFields`: for each reserved field name, warn
and delete when present.  The JavaScript mutates `data` in place and
returns only the warnings; the embedding returns the updated object
alongside them. -/
def stripNamed (fs : List String) (file : String) (o : JObj) : JObj × List String :=
  fs.foldl
    (fun acc field =>
      if hasKey acc.1 field then
        (deleteKey acc.1 field, acc.2 ++ [warnMsg field file])
      else acc)
    (o, [])

/-- Second loop of `stripPlatformFields`: `Object.keys(data)` is snapshot
once, then every key starting with `_platform` is warned about and
deleted. -/
def stripPrefixed (file : String) (o : JObj) : JObj × List String :=
  (o.map (fun kv => kv.1)).foldl
    (fun acc k =>
      if strStartsWith k "_platform" then
        (deleteKey acc.1 k, acc.2 ++ [warnMsg k file])
      else acc)
    (o, [])

/-- `stripPlatformFields(data, filePath)` of `scripts/validate.js`:
removes the four reserved field names, then all `_platform`-prefixed
keys, collecting one warning per removal.  (`path.basename(filePath)` is
modelled by passing the base name in `file`.) -/
def stripPlatformFields (o : JObj) (file : String) : JObj × List String :=
  let s1 := stripNamed PLATFORM_FIELDS file o
  let s2 := stripPrefixed file s1.1
  (s2.1, s1.2 ++ s2.2)

/-- A key removed by the sanitizer: one of the reserved names or a
`_platform`-prefixed key. -/
def isPlatformKey (k : String) : Bool :=
  PLATFORM_FIELDS.contains k || strStartsWith k "_platform"

/-! ### validate.js: conflict detection -/

/-- One server file as seen by `checkConflicts`: its path (relative to the
repository root, used in messages) and the `id` and `alias` fields of its
parsed JSON (`none` when absent; ids and aliases are strings per the
schema). -/
structure SrvFile where
  file : String
  id : Option String
  aliasTok : Option String
deriving DecidableEq, Repr

/-- JavaScript truthiness of an optional string field: absent and `""`
are falsy (`if (data.id)`, `if (data.alias)`). -/
def truthy : Option String → Bool
  | none => false
  | some s => !(s == "")

/-- The effective id of a record: the `id` value when truthy. -/
def idTok (r : SrvFile) : Option String :=
  match r.id with
  | some i => if i == "" then none else some i
  | none => none

/-- The effective alias of a record: the `alias` value when truthy. -/
def alTok (r : SrvFile) : Option String :=
  match r.aliasTok with
  | some a => if a == "" then none else some a
  | none => none

/-- Kinds of conflicts reported by `checkConflicts`. -/
inductive ConflictKind where
  | dupId : ConflictKind
  | dupAlias : ConflictKind
  | idAlias : ConflictKind
deriving DecidableEq, Repr

/-- One reported conflict: its kind, the colliding token, the file being
processed when it was reported, and the file recorded earlier in the
relevant mapping. -/
structure Conflict where
  kind : ConflictKind
  token : String
  file : String
  other : String
deriving DecidableEq, Repr

/-- State of the single pass of `checkConflicts`: the `ids` and `aliases`
`Map`s (insertion-ordered association lists, which is how a JavaScript
`Map` behaves) and the conflicts reported so far. -/
structure CCState where
  ids : List (String × String)
  aliases : List (String × String)
  conflicts : List Conflict
deriving Repr

/-- `m.has(k)` on the embedded `Map`. -/
def mapHas (m : List (String × String)) (k : String) : Bool :=
  m.any (fun e => e.1 == k)

/-- `m.get(k)` on the embedded `Map` (only ever read after `has` returned
true, so the `""` default is never observable). -/
def mapGet (m : List (String × String)) (k : String) : String :=
  match m.find? (fun e => e.1 == k) with
  | some e => e.2
  | none => ""

/-- The `if (data.id) { ... }` block of `checkConflicts`, flattened over
its two independent tests: report a duplicate id or insert, then report a
collision with an existing alias.  `f` is the current file, `i` the
truthy id. -/
def stepIdCore (st : CCState) (f : String) (i : String) : CCState :=
  if mapHas st.ids i then
    if mapHas st.aliases i then
      { st with conflicts := st.conflicts
          ++ [⟨ConflictKind.dupId, i, f, mapGet st.ids i⟩]
          ++ [⟨ConflictKind.idAlias, i, f, mapGet st.aliases i⟩] }
    else
      { st with conflicts := st.conflicts ++ [⟨ConflictKind.dupId, i, f, mapGet st.ids i⟩] }
  else
    if mapHas st.aliases i then
      { st with
        ids := st.ids ++ [(i, f)]
        conflicts := st.conflicts ++ [⟨ConflictKind.idAlias, i, f, mapGet st.aliases i⟩] }
    else
      { st with ids := st.ids ++ [(i, f)] }

/-- The `if (data.alias) { ... }` block, flattened likewise: duplicate
alias or insert, then collision with an existing id. -/
def stepAliasCore (st : CCState) (f : String) (a : String) : CCState :=
  if mapHas st.aliases a then
    if mapHas st.ids a then
      { st with conflicts := st.conflicts
          ++ [⟨ConflictKind.dupAlias, a, f, mapGet st.aliases a⟩]
          ++ [⟨ConflictKind.idAlias, a, f, mapGet st.ids a⟩] }
    else
      { st with conflicts := st.conflicts ++ [⟨ConflictKind.dupAlias, a, f, mapGet st.aliases a⟩] }
  else
    if mapHas st.ids a then
      { st with
        aliases := st.aliases ++ [(a, f)]
        conflicts := st.conflicts ++ [⟨ConflictKind.idAlias, a, f, mapGet st.ids a⟩] }
    else
      { st with aliases := st.aliases ++ [(a, f)] }

/-- The id half of processing one record (skipped for a falsy id). -/
def stepId (st : CCState) (r : SrvFile) : CCState :=
  match idTok r with
  | none => st
  | some i => stepIdCore st r.file i

/-- The alias half of processing one record (skipped for a falsy alias);
runs on the state left by the id half. -/
def stepAlias (st : CCState) (r : SrvFile) : CCState :=
  match alTok r with
  | none => st
  | some a => stepAliasCore st r.file a

/-- Processing of one record inside the `for` loop of `checkConflicts`. -/
def procRecord (st : CCState) (r : SrvFile) : CCState :=
  stepAlias (stepId st r) r

/-- The empty initial state of a `checkConflicts` run. -/
def initCC : CCState := ⟨[], [], []⟩

/-- Left fold of the record list over the conflict-detection step. -/
def runCC (st : CCState) (l : List SrvFile) : CCState :=
  l.foldl procRecord st

/-- `checkConflicts` of `scripts/validate.js`, restricted to its
observable output: the ordered list of conflicts reported over the given
records (files that fail to parse are skipped by the source before this
point and are therefore not part of the input list). -/
def checkConflicts (l : List SrvFile) : List Conflict :=
  (runCC initCC l).conflicts

/-- The conflicts of a given kind and token, in report order. -/
def filterKT (cs : List Conflict) (k : ConflictKind) (t : String) : List Conflict :=
  cs.filter (fun c => c.kind == k && c.token == t)

/-- Number of conflicts of a given kind and token. -/
def cntKT (cs : List Conflict) (k : ConflictKind) (t : String) : Nat :=
  (filterKT cs k t).length

/-- Number of records whose truthy id is `t`. -/
def countId (l : List SrvFile) (t : String) : Nat :=
  l.countP (fun r => idTok r == some t)

/-- Number of records whose truthy alias is `t`. -/
def countAl (l : List SrvFile) (t : String) : Nat :=
  l.countP (fun r => alTok r == some t)

/-! ### build-bundle.js: enrichment -/

/-- `BUNDLE_VERSION` of `scripts/build-bundle.js`. -/
def BUNDLE_VERSION : String := "2.1.0"

/-- `enrichServer(server)` of `scripts/build-bundle.js`: spread-copies the
record and then unconditionally assigns `badges`, `hosting_type` and
`timestamps`.  The wall-clock instant `new Date().toISOString()` is
passed in as `now`. -/
def enrichServer (server : JObj) (now : String) : JObj :=
  let pub := objGet server "publisher"
  let badges : JsVal :=
    if truthyV pub && isBoolTrue (jsGet pub "official") then
      JsVal.arr [JsVal.str "official"]
    else
      JsVal.arr []
  let tr := objGet server "transport"
  let hosting : JsVal :=
    if truthyV tr && isStrEq (jsGet tr "type") "stdio" then JsVal.str "local"
    else if truthyV tr && isStrEq (jsGet tr "type") "http" then JsVal.str "remote"
    else JsVal.str "local"
  let ts : JsVal := JsVal.obj [("created_at", JsVal.str now), ("updated_at", JsVal.str now)]
  objSet (objSet (objSet server "badges" badges) "hosting_type" hosting) "timestamps" ts

/-! ### build-bundle.js: sorting by name -/

/-- `a.name || ""`: the name used for sorting (absent or falsy names
compare as the empty string). -/
def nameOf (s : JObj) : String :=
  match objGet s "name" with
  | JsVal.str v => v
  | _ => ""

/-- The primary collation key of a string: its characters folded to lower
case (compared lexicographically below). -/
def lowerKey (s : String) : List Char := s.data.map Char.toLower

/-- The case-level collation key: every letter's case swapped, so that the
induced lexicographic order places lower case before upper case. -/
def swapKey (s : String) : List Char :=
  s.data.map (fun c => if c.isUpper then c.toLower else if c.isLower then c.toUpper else c)

/-- Models `a.localeCompare(b) <= 0` for the default locale collation used
by the sort comparator: primary comparison is case-insensitive (strings
folded to lower case compared lexicographically), with ties broken at the
case level, lower case ordering first.  Locale- and accent-specific
weights of the ICU collator are outside the model; no claim depends on
them. -/
def localeLe (a b : String) : Bool :=
  decide (lowerKey a < lowerKey b) ||
    ((lowerKey a == lowerKey b) && decide (swapKey a ≤ swapKey b))

/-- The comparator relation of `servers.sort((a, b) => (a.name ||
"").localeCompare(b.name || ""))`. -/
def nameLe (a b : JObj) : Prop := localeLe (nameOf a) (nameOf b) = true

instance : DecidableRel nameLe :=
  fun a b => inferInstanceAs (Decidable (localeLe (nameOf a) (nameOf b) = true))

/-- `servers.sort(...)`: `Array.prototype.sort` is guaranteed stable, and
a stable sort for a total preorder comparator is extensionally unique, so
it is embedded as insertion sort (which inserts after all
comparator-equal elements, i.e. stably). -/
def sortServers (servers : List JObj) : List JObj :=
  List.insertionSort nameLe servers

/-! ### build-bundle.js: categories, filters, featured ids -/

/-- The `categories` array of a record (`s.categories || []`); entries
kept as raw values, non-arrays contribute nothing. -/
def catEntries (s : JObj) : List JsVal :=
  match objGet s "categories" with
  | JsVal.arr vs => vs
  | _ => []

/-- The `usedCategories` `Set`, modelled up to membership: the string
entries of every record's `categories` array (only `has(c.id)` on string
ids is ever asked of the set, so non-string entries are immaterial). -/
def usedCategories (servers : List JObj) : List String :=
  servers.foldl
    (fun acc s =>
      acc ++ (catEntries s).filterMap
        (fun v => match v with
          | JsVal.str x => some x
          | _ => none))
    []

/-- One entry of `categories.json`: id, display name, icon. -/
structure Category where
  id : String
  name : String
  icon : String
deriving DecidableEq, Repr

/-- A `match` descriptor of a filter option. -/
structure MatchRule where
  field : String
  operator : String
  value : JsVal

/-- One option of a filter descriptor (the fixed `all` options carry
neither icon nor match rule). -/
structure FilterOption where
  id : String
  label : String
  icon : Option String
  matchRule : Option MatchRule

/-- One filter descriptor of `bundle.ui.filters`. -/
structure Filter where
  id : String
  label : String
  type : String
  options : List FilterOption

/-- The options of the category filter: the fixed `all` option followed by
one option per category of the store that is referenced by at least one
record. -/
def categoryFilterOptions (servers : List JObj) (cats : List Category) : List FilterOption :=
  { id := "all", label := "All Categories", icon := none, matchRule := none } ::
    (cats.filter (fun c => (usedCategories servers).contains c.id)).map
      (fun c =>
        { id := c.id
          label := c.name
          icon := some c.icon
          matchRule := some { field := "categories", operator := "contains", value := JsVal.str c.id } })

/-- The category filter descriptor. -/
def categoryFilter (servers : List JObj) (cats : List Category) : Filter :=
  { id := "category", label := "Category", type := "single",
    options := categoryFilterOptions servers cats }

/-- The static publisher filter descriptor. -/
def publisherFilter : Filter :=
  { id := "publisher", label := "Publisher", type := "single",
    options :=
      [ { id := "all", label := "All Publishers", icon := none, matchRule := none },
        { id := "official", label := "Official", icon := none,
          matchRule := some { field := "publisher.official", operator := "eq", value := JsVal.bool true } },
        { id := "verified", label := "Verified", icon := none,
          matchRule := some { field := "publisher.verified", operator := "eq", value := JsVal.bool true } } ] }

/-- The static transport filter descriptor. -/
def transportFilter : Filter :=
  { id := "transport", label := "Transport", type := "single",
    options :=
      [ { id := "all", label := "All", icon := none, matchRule := none },
        { id := "http", label := "Remote (HTTP)", icon := none,
          matchRule := some { field := "transport.type", operator := "eq", value := JsVal.str "http" } },
        { id := "stdio", label := "Local (Stdio)", icon := none,
          matchRule := some { field := "transport.type", operator := "eq", value := JsVal.str "stdio" } } ] }

/-- The static auth filter descriptor. -/
def authFilter : Filter :=
  { id := "auth", label := "Auth Required", type := "single",
    options :=
      [ { id := "all", label := "All", icon := none, matchRule := none },
        { id := "none", label := "No Auth", icon := none,
          matchRule := some { field := "auth.type", operator := "eq", value := JsVal.str "none" } },
        { id := "api_key", label := "API Key", icon := none,
          matchRule := some { field := "auth.type", operator := "eq", value := JsVal.str "api_key" } },
        { id := "oauth", label := "OAuth", icon := none,
          matchRule := some { field := "auth.type", operator := "eq", value := JsVal.str "oauth" } } ] }

/-- One rule of a sort option. -/
structure SortRule where
  field : String
  direction : String
  nulls : Option String

/-- One entry of `bundle.ui.sort_options`. -/
structure SortOption where
  id : String
  label : String
  rules : List SortRule

/-- The static `sort_options` block. -/
def sortOptionsData : List SortOption :=
  [ { id := "recommended", label := "Recommended",
      rules :=
        [ { field := "publisher.official", direction := "desc", nulls := some "last" },
          { field := "publisher.verified", direction := "desc", nulls := some "last" },
          { field := "name", direction := "asc", nulls := none } ] },
    { id := "name_asc", label := "Name A-Z",
      rules := [ { field := "name", direction := "asc", nulls := none } ] },
    { id := "name_desc", label := "Name Z-A",
      rules := [ { field := "name", direction := "desc", nulls := none } ] } ]

/-- `featuredIds` of `scripts/build-bundle.js`: records whose publisher,
`publisher.official` and `publisher.verified` are truthy, first six, as
ids (`.map(s => s.id)`; a record without an id contributes
`undefined`). -/
def featuredIds (servers : List JObj) : List JsVal :=
  ((servers.filter
      (fun s =>
        truthyV (objGet s "publisher") &&
          truthyV (jsGet (objGet s "publisher") "official") &&
          truthyV (jsGet (objGet s "publisher") "verified"))).take 6).map
    (fun s => objGet s "id")

/-! ### build-bundle.js: the bundle and main -/

/-- The written `bundle.json`, with the structure of the `bundle` object
of `scripts/build-bundle.js` (`ui` flattened into the record). -/
structure Bundle where
  version : String
  updatedAt : String
  servers : List JObj
  categories : List Category
  filters : List Filter
  sortOptions : List SortOption
  defaultSort : String
  itemsPerPage : Nat
  featuredServerIds : List JsVal

/-- The per-file loop of `main`: each record is parsed and enriched; the
first failure calls `process.exit(1)`, which aborts the run before
anything is written. -/
def loadAndEnrich (now : String) : List (Except String JObj) → Except Nat (List JObj)
  | [] => Except.ok []
  | Except.error _ :: _ => Except.error 1
  | Except.ok d :: rest =>
    match loadAndEnrich now rest with
    | Except.ok l => Except.ok (enrichServer d now :: l)
    | Except.error c => Except.error c

/-- `main` of `scripts/build-bundle.js` as a function of its inputs: the
result of loading `categories.json`, and the parse result of each server
file in directory order.  An `Except.error` result is a `process.exit`
with that code before the bundle file is written; `Except.ok b` means
`b` is the single artifact written at the end of the run.  Both
timestamps of a run are modelled by the one instant `now`. -/
def buildBundleMain (now : String) (catRes : Except String (List Category))
    (files : List (Except String JObj)) : Except Nat Bundle :=
  match catRes with
  | Except.error _ => Except.error 1
  | Except.ok categories =>
    match loadAndEnrich now files with
    | Except.error c => Except.error c
    | Except.ok servers0 =>
      let servers := sortServers servers0
      Except.ok
        { version := BUNDLE_VERSION
          updatedAt := now
          servers := servers
          categories := categories
          filters := [categoryFilter servers categories, publisherFilter, transportFilter, authFilter]
          sortOptions := sortOptionsData
          defaultSort := "recommended"
          itemsPerPage := 24
          featuredServerIds := featuredIds servers }

/-! ### Lemmas: object reads and writes -/

theorem beq_false_symm {a b : String} (h : (a == b) = false) : (b == a) = false := by
  simp only [beq_eq_false_iff_ne] at h ⊢
  exact fun e => h e.symm

theorem objGet_cons_of_ne {kv : String × JsVal} {o : JObj} {k : String}
    (h : (kv.1 == k) = false) : objGet (kv :: o) k = objGet o k := by
  simp [objGet, List.find?_cons, h]

theorem objGet_cons_of_eq {kv : String × JsVal} {o : JObj} {k : String}
    (h : (kv.1 == k) = true) : objGet (kv :: o) k = kv.2 := by
  simp [objGet, List.find?_cons, h]

theorem objSet_cons_of_ne {kv : String × JsVal} {o : JObj} {k : String} {v : JsVal}
    (h : (kv.1 == k) = false) : objSet (kv :: o) k v = kv :: objSet o k v := by
  simp only [objSet, List.any_cons, h, Bool.false_or, List.map_cons, h]
  split <;> simp [h]

theorem objGet_map_keyrw (o : JObj) {k k' : String} (v : JsVal) (h : (k' == k) = false) :
    objGet (o.map (fun kv => if kv.1 == k then (k, v) else kv)) k' = objGet o k' := by
  induction o with
  | nil => rfl
  | cons kv o ih =>
    by_cases hk : (kv.1 == k) = true
    · have hkeq : kv.1 = k := by simpa using hk
      have hkv : (kv.1 == k') = false := by
        rw [hkeq]
        exact beq_false_symm h
      simp only [List.map_cons, hk, if_pos]
      rw [objGet_cons_of_ne (beq_false_symm h), objGet_cons_of_ne hkv]
      exact ih
    · have hk' : (kv.1 == k) = false := by simpa using hk
      simp only [List.map_cons, hk', Bool.false_eq_true, if_neg, not_false_iff]
      by_cases hq : (kv.1 == k') = true
      · rw [objGet_cons_of_eq hq, objGet_cons_of_eq hq]
      · have hq' : (kv.1 == k') = false := by simpa using hq
        rw [objGet_cons_of_ne hq', objGet_cons_of_ne hq']
        exact ih

theorem objGet_append_single_of_ne (o : JObj) {k k' : String} (v : JsVal)
    (h : (k' == k) = false) : objGet (o ++ [(k, v)]) k' = objGet o k' := by
  induction o with
  | nil =>
    simp only [List.nil_append]
    rw [objGet_cons_of_ne (beq_false_symm h)]
  | cons kv o ih =>
    by_cases hq : (kv.1 == k') = true
    · rw [List.cons_append, objGet_cons_of_eq hq, objGet_cons_of_eq hq]
    · have hq' : (kv.1 == k') = false := by simpa using hq
      rw [List.cons_append, objGet_cons_of_ne hq', objGet_cons_of_ne hq']
      exact ih

theorem objGet_objSet_self (o : JObj) (k : String) (v : JsVal) :
    objGet (objSet o k v) k = v := by
  induction o with
  | nil => simp [objSet, objGet]
  | cons kv o ih =>
    by_cases h : (kv.1 == k) = true
    · have hany : (kv :: o).any (fun e => e.1 == k) = true := by
        simp [List.any_cons, h]
      simp only [objSet, hany, if_pos, List.map_cons, h]
      exact objGet_cons_of_eq (by simp)
    · have h' : (kv.1 == k) = false := by simpa using h
      rw [objSet_cons_of_ne h', objGet_cons_of_ne h']
      exact ih

theorem objGet_objSet_of_ne (o : JObj) {k k' : String} (v : JsVal) (h : (k' == k) = false) :
    objGet (objSet o k v) k' = objGet o k' := by
  unfold objSet
  split
  · exact objGet_map_keyrw o v h
  · exact objGet_append_single_of_ne o v h

/-! ### Lemmas: enrichment -/

theorem objGet_enrichServer_badges (s : JObj) (now : String) :
    objGet (enrichServer s now) "badges" =
      (if truthyV (objGet s "publisher") && isBoolTrue (jsGet (objGet s "publisher") "official")
        then JsVal.arr [JsVal.str "official"] else JsVal.arr []) := by
  simp only [enrichServer]
  rw [objGet_objSet_of_ne _ _ (by decide), objGet_objSet_of_ne _ _ (by decide),
    objGet_objSet_self]

theorem objGet_enrichServer_hosting (s : JObj) (now : String) :
    objGet (enrichServer s now) "hosting_type" =
      (if truthyV (objGet s "transport") && isStrEq (jsGet (objGet s "transport") "type") "stdio"
        then JsVal.str "local"
        else if truthyV (objGet s "transport") && isStrEq (jsGet (objGet s "transport") "type") "http"
        then JsVal.str "remote"
        else JsVal.str "local") := by
  simp only [enrichServer]
  rw [objGet_objSet_of_ne _ _ (by decide), objGet_objSet_self]

theorem objGet_enrichServer_timestamps (s : JObj) (now : String) :
    objGet (enrichServer s now) "timestamps" =
      JsVal.obj [("created_at", JsVal.str now), ("updated_at", JsVal.str now)] := by
  simp only [enrichServer]
  rw [objGet_objSet_self]

theorem objGet_enrichServer_frame (s : JObj) (now : String) (k : String)
    (h1 : (k == "badges") = false) (h2 : (k == "hosting_type") = false)
    (h3 : (k == "timestamps") = false) :
    objGet (enrichServer s now) k = objGet s k := by
  simp only [enrichServer]
  rw [objGet_objSet_of_ne _ _ h3, objGet_objSet_of_ne _ _ h2, objGet_objSet_of_ne _ _ h1]

/-! ### Lemmas: the sort comparator -/

theorem localeLe_iff (a b : String) : localeLe a b = true ↔
    (lowerKey a < lowerKey b ∨ (lowerKey a = lowerKey b ∧ swapKey a ≤ swapKey b)) := by
  simp [localeLe, Bool.or_eq_true, Bool.and_eq_true, decide_eq_true_iff, beq_iff_eq]

theorem localeLe_refl (a : String) : localeLe a a = true :=
  (localeLe_iff a a).2 (Or.inr ⟨rfl, le_refl _⟩)

theorem localeLe_total (a b : String) : localeLe a b = true ∨ localeLe b a = true := by
  rcases lt_trichotomy (lowerKey a) (lowerKey b) with h | h | h
  · exact Or.inl ((localeLe_iff a b).2 (Or.inl h))
  · rcases le_total (swapKey a) (swapKey b) with h2 | h2
    · exact Or.inl ((localeLe_iff a b).2 (Or.inr ⟨h, h2⟩))
    · exact Or.inr ((localeLe_iff b a).2 (Or.inr ⟨h.symm, h2⟩))
  · exact Or.inr ((localeLe_iff b a).2 (Or.inl h))

theorem localeLe_trans {a b c : String} (h1 : localeLe a b = true) (h2 : localeLe b c = true) :
    localeLe a c = true := by
  rw [localeLe_iff] at h1 h2 ⊢
  rcases h1 with h1 | ⟨e1, s1⟩
  · rcases h2 with h2 | ⟨e2, _⟩
    · exact Or.inl (lt_trans h1 h2)
    · exact Or.inl (e2 ▸ h1)
  · rcases h2 with h2 | ⟨e2, s2⟩
    · exact Or.inl (by rw [e1]; exact h2)
    · exact Or.inr ⟨e1.trans e2, le_trans s1 s2⟩

instance : IsTotal JObj nameLe :=
  ⟨fun a b => localeLe_total (nameOf a) (nameOf b)⟩

instance : IsTrans JObj nameLe :=
  ⟨fun _ _ _ h1 h2 => localeLe_trans h1 h2⟩

/-! ### Lemmas: stability of the sort -/

theorem filter_orderedInsert_pos (q : JObj → Bool) (a : JObj) (t : List JObj)
    (hq : q a = true) (h : ∀ b, q b = true → nameLe a b) :
    (List.orderedInsert nameLe a t).filter q = a :: t.filter q := by
  induction t with
  | nil => simp [List.orderedInsert, hq]
  | cons b t ih =>
    by_cases hr : nameLe a b
    · simp [List.orderedInsert, if_pos hr, hq]
    · have hqb : q b = false := by
        cases hqb : q b
        · rfl
        · exact absurd (h b hqb) hr
      simp [List.orderedInsert, if_neg hr, List.filter_cons, hqb, ih]

theorem filter_orderedInsert_neg (q : JObj → Bool) (a : JObj) (t : List JObj)
    (hq : q a = false) :
    (List.orderedInsert nameLe a t).filter q = t.filter q := by
  induction t with
  | nil => simp [List.orderedInsert, hq]
  | cons b t ih =>
    by_cases hr : nameLe a b
    · simp [List.orderedInsert, if_pos hr, List.filter_cons, hq]
    · simp [List.orderedInsert, if_neg hr, List.filter_cons, ih]

theorem filter_insertionSort (q : JObj → Bool)
    (h : ∀ a b, q a = true → q b = true → nameLe a b) (l : List JObj) :
    (List.insertionSort nameLe l).filter q = l.filter q := by
  induction l with
  | nil => rfl
  | cons a l ih =>
    rw [List.insertionSort]
    by_cases hq : q a = true
    · rw [filter_orderedInsert_pos q a _ hq (fun b hb => h a b hq hb), ih,
        List.filter_cons_of_pos hq]
    · have hq' : q a = false := by simpa using hq
      rw [filter_orderedInsert_neg q a _ hq', ih, List.filter_cons_of_neg (by simp [hq'])]

/-! ### Lemmas: conflict detection, single steps -/

theorem countId_cons (r : SrvFile) (l : List SrvFile) (t : String) :
    countId (r :: l) t = countId l t + (if (idTok r == some t) = true then 1 else 0) := by
  simp [countId, List.countP_cons]

theorem countAl_cons (r : SrvFile) (l : List SrvFile) (t : String) :
    countAl (r :: l) t = countAl l t + (if (alTok r == some t) = true then 1 else 0) := by
  simp [countAl, List.countP_cons]

theorem mapHas_append_single (m : List (String × String)) (i f t : String) :
    mapHas (m ++ [(i, f)]) t = (mapHas m t || (i == t)) := by
  simp [mapHas, List.any_append]

theorem cntKT_append (cs ds : List Conflict) (k : ConflictKind) (t : String) :
    cntKT (cs ++ ds) k t = cntKT cs k t + cntKT ds k t := by
  simp [cntKT, filterKT, List.filter_append]

theorem cntKT_single (c : Conflict) (k : ConflictKind) (t : String) :
    cntKT [c] k t = if (c.kind == k && c.token == t) = true then 1 else 0 := by
  cases h : (c.kind == k && c.token == t) <;>
    simp [cntKT, filterKT, List.filter_cons, h]

theorem cntKT_nil (k : ConflictKind) (t : String) : cntKT [] k t = 0 := rfl

theorem stepIdCore_ids (st : CCState) (f i : String) :
    (stepIdCore st f i).ids = if mapHas st.ids i then st.ids else st.ids ++ [(i, f)] := by
  unfold stepIdCore
  split <;> split <;> simp_all

theorem stepIdCore_aliases (st : CCState) (f i : String) :
    (stepIdCore st f i).aliases = st.aliases := by
  unfold stepIdCore
  split <;> split <;> rfl

theorem stepIdCore_conflicts (st : CCState) (f i : String) :
    (stepIdCore st f i).conflicts = st.conflicts
      ++ (if mapHas st.ids i then [⟨ConflictKind.dupId, i, f, mapGet st.ids i⟩] else [])
      ++ (if mapHas st.aliases i then [⟨ConflictKind.idAlias, i, f, mapGet st.aliases i⟩] else []) := by
  unfold stepIdCore
  split <;> split <;> simp_all

theorem stepAliasCore_ids (st : CCState) (f a : String) :
    (stepAliasCore st f a).ids = st.ids := by
  unfold stepAliasCore
  split <;> split <;> rfl

theorem stepAliasCore_aliases (st : CCState) (f a : String) :
    (stepAliasCore st f a).aliases =
      if mapHas st.aliases a then st.aliases else st.aliases ++ [(a, f)] := by
  unfold stepAliasCore
  split <;> split <;> simp_all

theorem stepAliasCore_conflicts (st : CCState) (f a : String) :
    (stepAliasCore st f a).conflicts = st.conflicts
      ++ (if mapHas st.aliases a then [⟨ConflictKind.dupAlias, a, f, mapGet st.aliases a⟩] else [])
      ++ (if mapHas st.ids a then [⟨ConflictKind.idAlias, a, f, mapGet st.ids a⟩] else []) := by
  unfold stepAliasCore
  split <;> split <;> simp_all

theorem stepId_aliases (st : CCState) (r : SrvFile) :
    (stepId st r).aliases = st.aliases := by
  unfold stepId
  cases idTok r
  · rfl
  · exact stepIdCore_aliases st r.file _

theorem stepAlias_ids (st : CCState) (r : SrvFile) :
    (stepAlias st r).ids = st.ids := by
  unfold stepAlias
  cases alTok r
  · rfl
  · exact stepAliasCore_ids st r.file _

theorem stepId_ids (st : CCState) (r : SrvFile) :
    (stepId st r).ids =
      match idTok r with
      | none => st.ids
      | some i => if mapHas st.ids i then st.ids else st.ids ++ [(i, r.file)] := by
  unfold stepId
  cases idTok r
  · rfl
  · exact stepIdCore_ids st r.file _

theorem stepAlias_aliases (st : CCState) (r : SrvFile) :
    (stepAlias st r).aliases =
      match alTok r with
      | none => st.aliases
      | some a => if mapHas st.aliases a then st.aliases else st.aliases ++ [(a, r.file)] := by
  unfold stepAlias
  cases alTok r
  · rfl
  · exact stepAliasCore_aliases st r.file _

theorem procRecord_ids (st : CCState) (r : SrvFile) :
    (procRecord st r).ids =
      match idTok r with
      | none => st.ids
      | some i => if mapHas st.ids i then st.ids else st.ids ++ [(i, r.file)] := by
  unfold procRecord
  rw [stepAlias_ids, stepId_ids]

theorem procRecord_aliases (st : CCState) (r : SrvFile) :
    (procRecord st r).aliases =
      match alTok r with
      | none => st.aliases
      | some a => if mapHas st.aliases a then st.aliases else st.aliases ++ [(a, r.file)] := by
  unfold procRecord
  rw [stepAlias_aliases, stepId_aliases]

theorem mapHas_procRecord_ids (st : CCState) (r : SrvFile) (t : String) :
    mapHas (procRecord st r).ids t = (mapHas st.ids t || (idTok r == some t)) := by
  rw [procRecord_ids]
  cases hid : idTok r with
  | none => simp
  | some i =>
    by_cases hit : i = t
    · subst hit
      cases hh : mapHas st.ids i <;> simp [hh, mapHas_append_single]
    · have : (i == t) = false := by simpa using hit
      cases hh : mapHas st.ids i <;> simp [hh, mapHas_append_single, this, hit]

theorem mapHas_stepId_ids (st : CCState) (r : SrvFile) (t : String) :
    mapHas (stepId st r).ids t = (mapHas st.ids t || (idTok r == some t)) := by
  have h1 : (procRecord st r).ids = (stepId st r).ids := stepAlias_ids _ _
  rw [← h1, mapHas_procRecord_ids]

theorem mapHas_procRecord_aliases (st : CCState) (r : SrvFile) (t : String) :
    mapHas (procRecord st r).aliases t = (mapHas st.aliases t || (alTok r == some t)) := by
  rw [procRecord_aliases]
  cases hal : alTok r with
  | none => simp
  | some a =>
    by_cases hat : a = t
    · subst hat
      cases hh : mapHas st.aliases a <;> simp [hh, mapHas_append_single]
    · have : (a == t) = false := by simpa using hat
      cases hh : mapHas st.aliases a <;> simp [hh, mapHas_append_single, this, hat]

/-! ### Lemmas: conflict counts of one processed record -/

theorem cnt_stepIdCore (st : CCState) (f i : String) (k : ConflictKind) (t : String) :
    cntKT (stepIdCore st f i).conflicts k t = cntKT st.conflicts k t
      + (if (mapHas st.ids i && ((ConflictKind.dupId == k) && (i == t))) = true then 1 else 0)
      + (if (mapHas st.aliases i && ((ConflictKind.idAlias == k) && (i == t))) = true then 1 else 0) := by
  rw [stepIdCore_conflicts, cntKT_append, cntKT_append]
  cases h1 : mapHas st.ids i <;> cases h2 : mapHas st.aliases i <;>
    simp [h1, h2, cntKT_single, cntKT_nil]

theorem cnt_stepAliasCore (st : CCState) (f a : String) (k : ConflictKind) (t : String) :
    cntKT (stepAliasCore st f a).conflicts k t = cntKT st.conflicts k t
      + (if (mapHas st.aliases a && ((ConflictKind.dupAlias == k) && (a == t))) = true then 1 else 0)
      + (if (mapHas st.ids a && ((ConflictKind.idAlias == k) && (a == t))) = true then 1 else 0) := by
  rw [stepAliasCore_conflicts, cntKT_append, cntKT_append]
  cases h1 : mapHas st.aliases a <;> cases h2 : mapHas st.ids a <;>
    simp [h1, h2, cntKT_single, cntKT_nil]

theorem cnt_dupId_stepAlias (st : CCState) (r : SrvFile) (t : String) :
    cntKT (stepAlias st r).conflicts ConflictKind.dupId t = cntKT st.conflicts ConflictKind.dupId t := by
  unfold stepAlias
  cases alTok r
  · rfl
  · rw [cnt_stepAliasCore]
    simp

theorem cnt_dupAlias_stepId (st : CCState) (r : SrvFile) (t : String) :
    cntKT (stepId st r).conflicts ConflictKind.dupAlias t = cntKT st.conflicts ConflictKind.dupAlias t := by
  unfold stepId
  cases idTok r
  · rfl
  · rw [cnt_stepIdCore]
    simp

theorem cnt_dupId_procRecord (st : CCState) (r : SrvFile) (t : String) :
    cntKT (procRecord st r).conflicts ConflictKind.dupId t = cntKT st.conflicts ConflictKind.dupId t
      + (if ((idTok r == some t) && mapHas st.ids t) = true then 1 else 0) := by
  unfold procRecord
  rw [cnt_dupId_stepAlias]
  unfold stepId
  cases hid : idTok r with
  | none => simp
  | some i =>
    rw [cnt_stepIdCore]
    by_cases hit : i = t
    · subst hit
      cases hh : mapHas st.ids i <;> simp [hh, Bool.and_comm]
    · have hf : (i == t) = false := by simpa using hit
      simp [hf, hit]

theorem cnt_dupAlias_procRecord (st : CCState) (r : SrvFile) (t : String) :
    cntKT (procRecord st r).conflicts ConflictKind.dupAlias t = cntKT st.conflicts ConflictKind.dupAlias t
      + (if ((alTok r == some t) && mapHas st.aliases t) = true then 1 else 0) := by
  unfold procRecord
  have hal : (stepId st r).aliases = st.aliases := stepId_aliases st r
  rw [show cntKT (stepAlias (stepId st r) r).conflicts ConflictKind.dupAlias t =
      cntKT (stepId st r).conflicts ConflictKind.dupAlias t
      + (if ((alTok r == some t) && mapHas (stepId st r).aliases t) = true then 1 else 0) from ?_,
    cnt_dupAlias_stepId, hal]
  unfold stepAlias
  cases hA : alTok r with
  | none => simp
  | some a =>
    rw [cnt_stepAliasCore]
    by_cases hat : a = t
    · subst hat
      cases hh : mapHas (stepId st r).aliases a <;> simp [hh, Bool.and_comm]
    · have hf : (a == t) = false := by simpa using hat
      simp [hf, hat]

theorem cnt_idAlias_procRecord (st : CCState) (r : SrvFile) (t : String) :
    cntKT (procRecord st r).conflicts ConflictKind.idAlias t = cntKT st.conflicts ConflictKind.idAlias t
      + (if ((idTok r == some t) && mapHas st.aliases t) = true then 1 else 0)
      + (if ((alTok r == some t) && (mapHas st.ids t || (idTok r == some t))) = true then 1 else 0) := by
  unfold procRecord
  have hIds : mapHas (stepId st r).ids t = (mapHas st.ids t || (idTok r == some t)) :=
    mapHas_stepId_ids st r t
  have hAl : (stepId st r).aliases = st.aliases := stepId_aliases st r
  -- alias half
  have stepA : cntKT (stepAlias (stepId st r) r).conflicts ConflictKind.idAlias t =
      cntKT (stepId st r).conflicts ConflictKind.idAlias t
      + (if ((alTok r == some t) && (mapHas st.ids t || (idTok r == some t))) = true then 1 else 0) := by
    unfold stepAlias
    cases hA : alTok r with
    | none => simp
    | some a =>
      rw [cnt_stepAliasCore, hAl]
      by_cases hat : a = t
      · subst hat
        rw [hIds]
        cases hh : (mapHas st.ids a || (idTok r == some a)) <;> simp [hh, Bool.and_comm]
      · have hf : (a == t) = false := by simpa using hat
        simp [hf, hat]
  -- id half
  have stepI : cntKT (stepId st r).conflicts ConflictKind.idAlias t =
      cntKT st.conflicts ConflictKind.idAlias t
      + (if ((idTok r == some t) && mapHas st.aliases t) = true then 1 else 0) := by
    unfold stepId
    cases hid : idTok r with
    | none => simp
    | some i =>
      rw [cnt_stepIdCore]
      by_cases hit : i = t
      · subst hit
        cases hh : mapHas st.aliases i <;> simp [hh, Bool.and_comm]
      · have hf : (i == t) = false := by simpa using hit
        simp [hf, hit]
  rw [stepA, stepI]

/-! ### Lemmas: conflict counts of a whole run -/

theorem runCC_nil (st : CCState) : runCC st [] = st := rfl

theorem runCC_cons (st : CCState) (r : SrvFile) (l : List SrvFile) :
    runCC st (r :: l) = runCC (procRecord st r) l := rfl

theorem cnt_dupId_runCC (l : List SrvFile) : ∀ (st : CCState) (t : String),
    cntKT (runCC st l).conflicts ConflictKind.dupId t =
      cntKT st.conflicts ConflictKind.dupId t +
        (if mapHas st.ids t then countId l t else countId l t - 1) := by
  induction l with
  | nil =>
    intro st t
    cases h : mapHas st.ids t <;> simp [runCC_nil, countId, h]
  | cons r l ih =>
    intro st t
    rw [runCC_cons, ih, cnt_dupId_procRecord, mapHas_procRecord_ids, countId_cons]
    cases hr : (idTok r == some t) <;> cases hh : mapHas st.ids t <;>
      simp [hr, hh] <;> omega

theorem cnt_dupAlias_runCC (l : List SrvFile) : ∀ (st : CCState) (t : String),
    cntKT (runCC st l).conflicts ConflictKind.dupAlias t =
      cntKT st.conflicts ConflictKind.dupAlias t +
        (if mapHas st.aliases t then countAl l t else countAl l t - 1) := by
  induction l with
  | nil =>
    intro st t
    cases h : mapHas st.aliases t <;> simp [runCC_nil, countAl, h]
  | cons r l ih =>
    intro st t
    rw [runCC_cons, ih, cnt_dupAlias_procRecord, mapHas_procRecord_aliases, countAl_cons]
    cases hr : (alTok r == some t) <;> cases hh : mapHas st.aliases t <;>
      simp [hr, hh] <;> omega

theorem cnt_idAlias_runCC_nodecl (l : List SrvFile) : ∀ (st : CCState) (t : String),
    countId l t = 0 → countAl l t = 0 →
    cntKT (runCC st l).conflicts ConflictKind.idAlias t =
      cntKT st.conflicts ConflictKind.idAlias t := by
  induction l with
  | nil => intro st t _ _; rfl
  | cons r l ih =>
    intro st t hci hca
    rw [countId_cons] at hci
    rw [countAl_cons] at hca
    have hri : (idTok r == some t) = false := by
      cases hq : (idTok r == some t)
      · rfl
      · rw [hq] at hci; simp at hci
    have hra : (alTok r == some t) = false := by
      cases hq : (alTok r == some t)
      · rfl
      · rw [hq] at hca; simp at hca
    rw [hri] at hci
    rw [hra] at hca
    simp only [if_neg, Bool.false_eq_true, not_false_iff, Nat.add_zero] at hci hca
    rw [runCC_cons, ih _ t hci hca, cnt_idAlias_procRecord]
    simp [hri, hra]

theorem cnt_idAlias_runCC_noId (l : List SrvFile) : ∀ (st : CCState) (t : String),
    countId l t = 0 → mapHas st.ids t = false →
    cntKT (runCC st l).conflicts ConflictKind.idAlias t =
      cntKT st.conflicts ConflictKind.idAlias t := by
  induction l with
  | nil => intro st t _ _; rfl
  | cons r l ih =>
    intro st t hci hh
    rw [countId_cons] at hci
    have hri : (idTok r == some t) = false := by
      cases hq : (idTok r == some t)
      · rfl
      · rw [hq] at hci; simp at hci
    rw [hri] at hci
    simp only [if_neg, Bool.false_eq_true, not_false_iff, Nat.add_zero] at hci
    have hh' : mapHas (procRecord st r).ids t = false := by
      rw [mapHas_procRecord_ids, hh, hri]
      rfl
    rw [runCC_cons, ih _ t hci hh', cnt_idAlias_procRecord]
    simp [hri, hh]

theorem cnt_idAlias_runCC_noAlias (l : List SrvFile) : ∀ (st : CCState) (t : String),
    countAl l t = 0 → mapHas st.aliases t = false →
    cntKT (runCC st l).conflicts ConflictKind.idAlias t =
      cntKT st.conflicts ConflictKind.idAlias t := by
  induction l with
  | nil => intro st t _ _; rfl
  | cons r l ih =>
    intro st t hca hh
    rw [countAl_cons] at hca
    have hra : (alTok r == some t) = false := by
      cases hq : (alTok r == some t)
      · rfl
      · rw [hq] at hca; simp at hca
    rw [hra] at hca
    simp only [if_neg, Bool.false_eq_true, not_false_iff, Nat.add_zero] at hca
    have hh' : mapHas (procRecord st r).aliases t = false := by
      rw [mapHas_procRecord_aliases, hh, hra]
      rfl
    rw [runCC_cons, ih _ t hca hh', cnt_idAlias_procRecord]
    simp [hra, hh]

theorem cnt_idAlias_runCC_pendingAlias (l : List SrvFile) : ∀ (st : CCState) (t : String),
    countId l t = 0 → countAl l t = 1 → mapHas st.ids t = true →
    cntKT (runCC st l).conflicts ConflictKind.idAlias t =
      cntKT st.conflicts ConflictKind.idAlias t + 1 := by
  induction l with
  | nil => intro st t _ hca _; simp [countAl] at hca
  | cons r l ih =>
    intro st t hci hca hh
    rw [countId_cons] at hci
    rw [countAl_cons] at hca
    have hri : (idTok r == some t) = false := by
      cases hq : (idTok r == some t)
      · rfl
      · rw [hq] at hci; simp at hci
    rw [hri] at hci
    simp only [if_neg, Bool.false_eq_true, not_false_iff, Nat.add_zero] at hci
    cases hra : (alTok r == some t) with
    | true =>
      rw [hra] at hca
      simp only [if_pos] at hca
      have hca' : countAl l t = 0 := by omega
      rw [runCC_cons, cnt_idAlias_runCC_nodecl l _ t hci hca', cnt_idAlias_procRecord]
      simp [hri, hra, hh]
    | false =>
      rw [hra] at hca
      simp only [if_neg, Bool.false_eq_true, not_false_iff, Nat.add_zero] at hca
      have hh' : mapHas (procRecord st r).ids t = true := by
        rw [mapHas_procRecord_ids, hh]
        rfl
      rw [runCC_cons, ih _ t hci hca hh', cnt_idAlias_procRecord]
      simp [hri, hra]

theorem cnt_idAlias_runCC_pendingId (l : List SrvFile) : ∀ (st : CCState) (t : String),
    countId l t = 1 → countAl l t = 0 → mapHas st.aliases t = true →
    cntKT (runCC st l).conflicts ConflictKind.idAlias t =
      cntKT st.conflicts ConflictKind.idAlias t + 1 := by
  induction l with
  | nil => intro st t hci _ _; simp [countId] at hci
  | cons r l ih =>
    intro st t hci hca hh
    rw [countId_cons] at hci
    rw [countAl_cons] at hca
    have hra : (alTok r == some t) = false := by
      cases hq : (alTok r == some t)
      · rfl
      · rw [hq] at hca; simp at hca
    rw [hra] at hca
    simp only [if_neg, Bool.false_eq_true, not_false_iff, Nat.add_zero] at hca
    cases hri : (idTok r == some t) with
    | true =>
      rw [hri] at hci
      simp only [if_pos] at hci
      have hci' : countId l t = 0 := by omega
      rw [runCC_cons, cnt_idAlias_runCC_nodecl l _ t hci' hca, cnt_idAlias_procRecord]
      simp [hri, hra, hh]
    | false =>
      rw [hri] at hci
      simp only [if_neg, Bool.false_eq_true, not_false_iff, Nat.add_zero] at hci
      have hh' : mapHas (procRecord st r).aliases t = true := by
        rw [mapHas_procRecord_aliases, hh]
        rfl
      rw [runCC_cons, ih _ t hci hca hh', cnt_idAlias_procRecord]
      simp [hri, hra]

theorem cnt_idAlias_runCC_oneOne (l : List SrvFile) : ∀ (st : CCState) (t : String),
    countId l t = 1 → countAl l t = 1 →
    mapHas st.ids t = false → mapHas st.aliases t = false →
    cntKT (runCC st l).conflicts ConflictKind.idAlias t =
      cntKT st.conflicts ConflictKind.idAlias t + 1 := by
  induction l with
  | nil => intro st t hci _ _ _; simp [countId] at hci
  | cons r l ih =>
    intro st t hci hca hhi hha
    rw [countId_cons] at hci
    rw [countAl_cons] at hca
    cases hri : (idTok r == some t) with
    | true =>
      rw [hri] at hci
      simp only [if_pos] at hci
      have hci' : countId l t = 0 := by omega
      cases hra : (alTok r == some t) with
      | true =>
        rw [hra] at hca
        simp only [if_pos] at hca
        have hca' : countAl l t = 0 := by omega
        rw [runCC_cons, cnt_idAlias_runCC_nodecl l _ t hci' hca', cnt_idAlias_procRecord]
        simp [hri, hra, hha, hhi]
      | false =>
        rw [hra] at hca
        simp only [if_neg, Bool.false_eq_true, not_false_iff, Nat.add_zero] at hca
        have hh' : mapHas (procRecord st r).ids t = true := by
          rw [mapHas_procRecord_ids, hri]
          simp
        rw [runCC_cons, cnt_idAlias_runCC_pendingAlias l _ t hci' hca hh',
          cnt_idAlias_procRecord]
        simp [hri, hra, hha]
    | false =>
      rw [hri] at hci
      simp only [if_neg, Bool.false_eq_true, not_false_iff, Nat.add_zero] at hci
      cases hra : (alTok r == some t) with
      | true =>
        rw [hra] at hca
        simp only [if_pos] at hca
        have hca' : countAl l t = 0 := by omega
        have hh' : mapHas (procRecord st r).aliases t = true := by
          rw [mapHas_procRecord_aliases, hra]
          simp
        rw [runCC_cons, cnt_idAlias_runCC_pendingId l _ t hci hca' hh',
          cnt_idAlias_procRecord]
        simp [hri, hra, hhi, hha]
      | false =>
        rw [hra] at hca
        simp only [if_neg, Bool.false_eq_true, not_false_iff, Nat.add_zero] at hca
        have hhi' : mapHas (procRecord st r).ids t = false := by
          rw [mapHas_procRecord_ids, hhi, hri]
          rfl
        have hha' : mapHas (procRecord st r).aliases t = false := by
          rw [mapHas_procRecord_aliases, hha, hra]
          rfl
        rw [runCC_cons, ih _ t hci hca hhi' hha', cnt_idAlias_procRecord]
        simp [hri, hra]

/-! ### Lemmas: the sanitizer -/

theorem hasKey_cons (kv : String × JsVal) (o : JObj) (g : String) :
    hasKey (kv :: o) g = ((kv.1 == g) || hasKey o g) := by
  simp [hasKey, List.any_cons]

theorem hasKey_deleteKey_ne (o : JObj) {g k : String} (h : (g == k) = false) :
    hasKey (deleteKey o k) g = hasKey o g := by
  induction o with
  | nil => rfl
  | cons kv o ih =>
    by_cases hk : (kv.1 == k) = true
    · have h1 : kv.1 = k := by simpa using hk
      have h2 : (kv.1 == g) = false := by
        rw [h1]
        exact beq_false_symm h
      have hd : deleteKey (kv :: o) k = deleteKey o k := by
        simp [deleteKey, List.filter_cons, hk]
      rw [hd, ih, hasKey_cons, h2, Bool.false_or]
    · have hk' : (kv.1 == k) = false := by simpa using hk
      have hd : deleteKey (kv :: o) k = kv :: deleteKey o k := by
        simp [deleteKey, List.filter_cons, hk']
      rw [hd, hasKey_cons, hasKey_cons, ih]

theorem stripNamed_loop (file : String) : ∀ (fs : List String), fs.Nodup → ∀ (o : JObj) (w : List String),
    fs.foldl
      (fun acc field =>
        if hasKey acc.1 field then
          (deleteKey acc.1 field, acc.2 ++ [warnMsg field file])
        else acc)
      (o, w)
    = (o.filter (fun kv => !(fs.contains kv.1)),
       w ++ (fs.filter (fun f => hasKey o f)).map (fun f => warnMsg f file)) := by
  intro fs
  induction fs with
  | nil =>
    intro _ o w
    simp
  | cons f fs ih =>
    intro hnd o w
    have hf : f ∉ fs := (List.nodup_cons.1 hnd).1
    have hnd' : fs.Nodup := (List.nodup_cons.1 hnd).2
    rw [List.foldl_cons]
    by_cases hk : hasKey o f = true
    · simp only [hk, if_pos]
      rw [ih hnd' (deleteKey o f) (w ++ [warnMsg f file])]
      simp only [Prod.mk.injEq]
      constructor
      · show (deleteKey o f).filter (fun kv => !(fs.contains kv.1)) = _
        rw [deleteKey, List.filter_filter]
        refine List.filter_congr ?_
        intro kv _
        rw [List.contains_cons]
        cases h1 : (kv.1 == f) <;> cases h2 : fs.contains kv.1 <;> simp [h1, h2]
      · rw [List.filter_cons_of_pos hk, List.map_cons, List.append_assoc]
        refine congrArg _ (congrArg _ (congrArg _ (List.filter_congr ?_)))
        intro g hg
        have hgf : (g == f) = false := by
          simp only [beq_eq_false_iff_ne]
          intro e
          exact hf (e ▸ hg)
        rw [hasKey_deleteKey_ne o hgf]
    · have hk' : hasKey o f = false := by simpa using hk
      simp only [hk', Bool.false_eq_true, if_neg, not_false_iff]
      rw [ih hnd' o w]
      simp only [Prod.mk.injEq]
      constructor
      · refine List.filter_congr ?_
        intro kv hkv
        have h1 : (kv.1 == f) = false := by
          cases hq : (kv.1 == f)
          · rfl
          · exfalso
            have : hasKey o f = true := by
              simp only [hasKey, List.any_eq_true]
              exact ⟨kv, hkv, hq⟩
            rw [this] at hk'
            simp at hk'
        rw [List.contains_cons]
        cases h2 : fs.contains kv.1 <;> simp [h1, h2]
      · rw [List.filter_cons_of_neg (by simp [hk'])]

theorem stripNamed_spec (fs : List String) (file : String) (o : JObj) (hnd : fs.Nodup) :
    stripNamed fs file o
      = (o.filter (fun kv => !(fs.contains kv.1)),
         (fs.filter (fun f => hasKey o f)).map (fun f => warnMsg f file)) := by
  unfold stripNamed
  rw [stripNamed_loop file fs hnd o [], List.nil_append]

theorem stripPrefixed_loop (file : String) : ∀ (ks : List String) (o : JObj) (w : List String),
    ks.foldl
      (fun acc k =>
        if strStartsWith k "_platform" then
          (deleteKey acc.1 k, acc.2 ++ [warnMsg k file])
        else acc)
      (o, w)
    = (o.filter (fun kv => !(ks.contains kv.1 && strStartsWith kv.1 "_platform")),
       w ++ (ks.filter (fun k => strStartsWith k "_platform")).map (fun k => warnMsg k file)) := by
  intro ks
  induction ks with
  | nil =>
    intro o w
    simp
  | cons k ks ih =>
    intro o w
    rw [List.foldl_cons]
    by_cases hp : strStartsWith k "_platform" = true
    · simp only [hp, if_pos]
      rw [ih (deleteKey o k) (w ++ [warnMsg k file])]
      simp only [Prod.mk.injEq]
      constructor
      · show (deleteKey o k).filter _ = _
        rw [deleteKey, List.filter_filter]
        refine List.filter_congr ?_
        intro kv _
        rw [List.contains_cons]
        by_cases h1 : (kv.1 == k) = true
        · have h1' : kv.1 = k := by simpa using h1
          rw [h1']
          simp [hp]
        · have h1' : (kv.1 == k) = false := by simpa using h1
          cases h2 : ks.contains kv.1 <;>
            cases h3 : strStartsWith kv.1 "_platform" <;> simp [h1', h2, h3]
      · have hfc : List.filter (fun x => strStartsWith x "_platform") (k :: ks)
            = k :: List.filter (fun x => strStartsWith x "_platform") ks :=
          List.filter_cons_of_pos hp
        rw [hfc, List.map_cons, List.append_assoc, List.singleton_append]
    · have hp' : strStartsWith k "_platform" = false := by simpa using hp
      simp only [hp', Bool.false_eq_true, if_neg, not_false_iff]
      rw [ih o w]
      simp only [Prod.mk.injEq]
      constructor
      · refine List.filter_congr ?_
        intro kv _
        rw [List.contains_cons]
        by_cases h1 : (kv.1 == k) = true
        · have h1' : kv.1 = k := by simpa using h1
          rw [h1']
          simp [hp']
        · have h1' : (kv.1 == k) = false := by simpa using h1
          cases h2 : ks.contains kv.1 <;>
            cases h3 : strStartsWith kv.1 "_platform" <;> simp [h1', h2, h3]
      · have hfc : List.filter (fun x => strStartsWith x "_platform") (k :: ks)
            = List.filter (fun x => strStartsWith x "_platform") ks :=
          List.filter_cons_of_neg (by simp [hp'])
        rw [hfc]

theorem stripPrefixed_spec (file : String) (o : JObj) :
    stripPrefixed file o
      = (o.filter (fun kv => !((o.map (fun e => e.1)).contains kv.1 && strStartsWith kv.1 "_platform")),
         (((o.map (fun e => e.1)).filter (fun k => strStartsWith k "_platform")).map
           (fun k => warnMsg k file))) := by
  unfold stripPrefixed
  rw [stripPrefixed_loop file _ o [], List.nil_append]

/-! ### Lemmas: counting removed fields and warnings -/

theorem countP_or_disjoint {α : Type} (p q : α → Bool) (l : List α)
    (h : ∀ a ∈ l, ¬(p a = true ∧ q a = true)) :
    l.countP (fun a => p a || q a) = l.countP p + l.countP q := by
  induction l with
  | nil => rfl
  | cons a l ih =>
    have ha := h a (List.mem_cons_self a l)
    rw [List.countP_cons, List.countP_cons, List.countP_cons,
      ih (fun b hb => h b (List.mem_cons_of_mem a hb))]
    cases hp : p a <;> cases hq : q a
    · simp
    · simp
      omega
    · simp
      omega
    · exact absurd ⟨hp, hq⟩ ha

theorem countP_key_unique (o : JObj) (f : String)
    (ho : (o.map (fun e => e.1)).Nodup) (hk : hasKey o f = true) :
    o.countP (fun kv => kv.1 == f) = 1 := by
  induction o with
  | nil => simp [hasKey] at hk
  | cons kv o ih =>
    rw [List.map_cons, List.nodup_cons] at ho
    rw [List.countP_cons]
    by_cases h1 : (kv.1 == f) = true
    · have hf1 : kv.1 = f := by simpa using h1
      have hzero : o.countP (fun kv => kv.1 == f) = 0 := by
        rw [List.countP_eq_zero]
        intro kv' hkv' hq
        have : kv'.1 = f := by simpa using hq
        apply ho.1
        rw [hf1, ← this]
        exact List.mem_map_of_mem (fun e => e.1) hkv'
      rw [hzero, h1]
      simp
    · have h1' : (kv.1 == f) = false := by simpa using h1
      rw [hasKey_cons, h1', Bool.false_or] at hk
      rw [ih ho.2 hk, h1']
      simp

theorem length_filter_fields (fs : List String) (o : JObj) (hfs : fs.Nodup)
    (ho : (o.map (fun e => e.1)).Nodup) :
    (fs.filter (fun f => hasKey o f)).length = o.countP (fun kv => fs.contains kv.1) := by
  induction fs with
  | nil => simp
  | cons f fs ih =>
    rw [List.nodup_cons] at hfs
    have hdisj : ∀ kv ∈ o, ¬((kv.1 == f) = true ∧ fs.contains kv.1 = true) := by
      intro kv _ ⟨h1, h2⟩
      have e1 : kv.1 = f := by simpa using h1
      rw [e1] at h2
      exact hfs.1 (by simpa using h2)
    have hsplit : o.countP (fun kv => (f :: fs).contains kv.1)
        = o.countP (fun kv => kv.1 == f) + o.countP (fun kv => fs.contains kv.1) := by
      rw [show (fun kv : String × JsVal => (f :: fs).contains kv.1)
          = (fun kv : String × JsVal => (kv.1 == f) || fs.contains kv.1) from
        funext (fun kv => List.contains_cons)]
      exact countP_or_disjoint _ _ o hdisj
    by_cases hk : hasKey o f = true
    · have hfc : List.filter (fun f => hasKey o f) (f :: fs)
          = f :: List.filter (fun f => hasKey o f) fs := List.filter_cons_of_pos hk
      rw [hfc, List.length_cons, ih hfs.2, hsplit, countP_key_unique o f ho hk]
      omega
    · have hk' : hasKey o f = false := by simpa using hk
      have hz : o.countP (fun kv => kv.1 == f) = 0 := by
        rw [List.countP_eq_zero]
        intro kv hkv hq
        have : hasKey o f = true := by
          simp only [hasKey, List.any_eq_true]
          exact ⟨kv, hkv, hq⟩
        rw [this] at hk'
        simp at hk'
      have hfc : List.filter (fun f => hasKey o f) (f :: fs)
          = List.filter (fun f => hasKey o f) fs := List.filter_cons_of_neg (by simp [hk'])
      rw [hfc, ih hfs.2, hsplit, hz]
      omega

theorem pf_nodup : PLATFORM_FIELDS.Nodup := by decide

theorem pf_not_prefixed : ∀ k, PLATFORM_FIELDS.contains k = true → strStartsWith k "_platform" = false := by
  intro k h
  simp only [PLATFORM_FIELDS, List.contains_cons, List.contains_nil, Bool.or_false,
    Bool.or_eq_true, beq_iff_eq] at h
  rcases h with h | h | h | h <;> subst h <;> decide

/-! ### Lemmas: exact conflict lists of short runs -/

theorem mapGet_cons_head (f t : String) (m : List (String × String)) :
    mapGet ((t, f) :: m) t = f := by
  simp [mapGet, List.find?_cons]

theorem filterKT_nil2 (k : ConflictKind) (t : String) : filterKT [] k t = [] := rfl

theorem filterKT_append (cs ds : List Conflict) (k : ConflictKind) (t : String) :
    filterKT (cs ++ ds) k t = filterKT cs k t ++ filterKT ds k t := by
  simp [filterKT, List.filter_append]

theorem filterKT_single (c : Conflict) (k : ConflictKind) (t : String) :
    filterKT [c] k t = if (c.kind == k && c.token == t) = true then [c] else [] := by
  cases h : (c.kind == k && c.token == t) <;> simp [filterKT, List.filter_cons, h]

theorem filterKT_ite (c : Bool) (x : List Conflict) (k : ConflictKind) (t : String) :
    filterKT (if c then x else []) k t = if c then filterKT x k t else [] := by
  cases c <;> simp [filterKT]

theorem stepId_conflicts (st : CCState) (r : SrvFile) :
    (stepId st r).conflicts = st.conflicts
      ++ (match idTok r with
          | none => []
          | some i =>
            (if mapHas st.ids i then [⟨ConflictKind.dupId, i, r.file, mapGet st.ids i⟩] else [])
            ++ (if mapHas st.aliases i then [⟨ConflictKind.idAlias, i, r.file, mapGet st.aliases i⟩] else [])) := by
  unfold stepId
  cases hid : idTok r with
  | none => simp
  | some i =>
    rw [stepIdCore_conflicts, List.append_assoc]

theorem procRecord_conflicts (st : CCState) (r : SrvFile) :
    (procRecord st r).conflicts = st.conflicts
      ++ (match idTok r with
          | none => []
          | some i =>
            (if mapHas st.ids i then [⟨ConflictKind.dupId, i, r.file, mapGet st.ids i⟩] else [])
            ++ (if mapHas st.aliases i then [⟨ConflictKind.idAlias, i, r.file, mapGet st.aliases i⟩] else []))
      ++ (match alTok r with
          | none => []
          | some a =>
            (if mapHas st.aliases a then [⟨ConflictKind.dupAlias, a, r.file, mapGet st.aliases a⟩] else [])
            ++ (if mapHas (stepId st r).ids a then [⟨ConflictKind.idAlias, a, r.file, mapGet (stepId st r).ids a⟩] else [])) := by
  unfold procRecord stepAlias
  cases hal : alTok r with
  | none => simp [stepId_conflicts]
  | some a =>
    rw [stepAliasCore_conflicts, stepId_aliases, stepId_conflicts, List.append_assoc]

theorem checkConflicts_pair (A B : SrvFile) :
    checkConflicts [A, B] = (procRecord (procRecord initCC A) B).conflicts := rfl

/-! ### Lemmas: enrichment conditions -/

theorem isBoolTrue_iff (w : JsVal) : isBoolTrue w = true ↔ w = JsVal.bool true := by
  cases w with
  | bool b => cases b <;> simp [isBoolTrue]
  | _ => simp [isBoolTrue]

theorem isStrEq_iff (w : JsVal) (x : String) : isStrEq w x = true ↔ w = JsVal.str x := by
  cases w <;> simp [isStrEq]

theorem truthy_official_iff (v : JsVal) :
    (truthyV v && isBoolTrue (jsGet v "official")) = true ↔ jsGet v "official" = JsVal.bool true := by
  cases v <;> simp [truthyV, jsGet, isBoolTrue_iff]

theorem type_is_obj_truthy (v : JsVal) (x : String) (h : jsGet v "type" = JsVal.str x) :
    truthyV v = true := by
  cases v with
  | obj fields => rfl
  | undef => simp [jsGet] at h
  | null => simp [jsGet] at h
  | bool b => simp [jsGet] at h
  | str y => simp [jsGet] at h
  | num n => simp [jsGet] at h
  | arr l => simp [jsGet] at h

/-! ### Lemmas: token truthiness -/

theorem idTok_none_of_falsy (r : SrvFile) (h : truthy r.id = false) : idTok r = none := by
  unfold idTok
  cases hr : r.id with
  | none => rfl
  | some i =>
    rw [hr] at h
    simp only [truthy] at h
    cases hq : (i == "") with
    | true => simp [hq]
    | false =>
      rw [hq] at h
      simp at h

theorem alTok_none_of_falsy (r : SrvFile) (h : truthy r.aliasTok = false) : alTok r = none := by
  unfold alTok
  cases hr : r.aliasTok with
  | none => rfl
  | some a =>
    rw [hr] at h
    simp only [truthy] at h
    cases hq : (a == "") with
    | true => simp [hq]
    | false =>
      rw [hq] at h
      simp at h

/-! ### Lemmas: the bundle build -/

theorem loadAndEnrich_all_ok (now : String) (objs : List JObj) :
    loadAndEnrich now (objs.map Except.ok) = Except.ok (objs.map (fun d => enrichServer d now)) := by
  induction objs with
  | nil => rfl
  | cons d objs ih => simp [loadAndEnrich, ih]

theorem loadAndEnrich_error (now : String) :
    ∀ (files : List (Except String JObj)) (e : String),
      Except.error e ∈ files → loadAndEnrich now files = Except.error 1 := by
  intro files
  induction files with
  | nil => intro e h; cases h
  | cons f files ih =>
    intro e h
    cases f with
    | error _ => rfl
    | ok d =>
      rcases List.mem_cons.1 h with he | hm
      · exact absurd he (by simp)
      · simp [loadAndEnrich, ih e hm]

theorem buildBundleMain_ok (now : String) (cats : List Category)
    (files : List (Except String JObj)) (b : Bundle)
    (h : buildBundleMain now (Except.ok cats) files = Except.ok b) :
    ∃ servers0, loadAndEnrich now files = Except.ok servers0
      ∧ b.servers = sortServers servers0
      ∧ b.featuredServerIds = featuredIds (sortServers servers0)
      ∧ b.filters = [categoryFilter (sortServers servers0) cats, publisherFilter,
          transportFilter, authFilter]
      ∧ b.categories = cats := by
  unfold buildBundleMain at h
  cases hl : loadAndEnrich now files with
  | error c =>
    rw [hl] at h
    exact absurd h (by simp)
  | ok servers0 =>
    rw [hl] at h
    simp only [Except.ok.injEq] at h
    exact ⟨servers0, rfl, by rw [← h], by rw [← h], by rw [← h], by rw [← h]⟩

/-! ### Lemmas: used categories -/

theorem usedCategories_mem (servers : List JObj) (c : String) :
    c ∈ usedCategories servers ↔ ∃ s ∈ servers, JsVal.str c ∈ catEntries s := by
  have loop : ∀ (l : List JObj) (acc : List String),
      (c ∈ l.foldl
        (fun acc s =>
          acc ++ (catEntries s).filterMap
            (fun v => match v with
              | JsVal.str x => some x
              | _ => none))
        acc)
      ↔ (c ∈ acc ∨ ∃ s ∈ l, JsVal.str c ∈ catEntries s) := by
    intro l
    induction l with
    | nil => intro acc; simp
    | cons s l ih =>
      intro acc
      rw [List.foldl_cons, ih]
      constructor
      · rintro (h | h)
        · rw [List.mem_append] at h
          rcases h with h | h
          · exact Or.inl h
          · refine Or.inr ⟨s, List.mem_cons_self _ _, ?_⟩
            rw [List.mem_filterMap] at h
            obtain ⟨v, hv, hg⟩ := h
            cases v <;> simp_all
        · obtain ⟨s', hs', hc⟩ := h
          exact Or.inr ⟨s', List.mem_cons_of_mem _ hs', hc⟩
      · rintro (h | ⟨s', hs', hc⟩)
        · exact Or.inl (List.mem_append.2 (Or.inl h))
        · rcases List.mem_cons.1 hs' with e | hmem
          · subst e
            left
            rw [List.mem_append]
            right
            rw [List.mem_filterMap]
            exact ⟨JsVal.str c, hc, rfl⟩
          · exact Or.inr ⟨s', hmem, hc⟩
  have h := loop servers []
  simpa [usedCategories] using h

/-! ### Lemmas: assembling the sanitizer -/

theorem map_fst_filter_key (o : JObj) (p : String → Bool) :
    ((o.filter (fun kv => p kv.1)).map (fun e => e.1)) = (o.map (fun e => e.1)).filter p := by
  induction o with
  | nil => rfl
  | cons kv o ih =>
    cases hp : p kv.1 <;>
      simp [List.filter_cons, hp, ih]

theorem stripPlatformFields_fst (o : JObj) (file : String) :
    (stripPlatformFields o file).1 = o.filter (fun kv => !(isPlatformKey kv.1)) := by
  show (stripPrefixed file (stripNamed PLATFORM_FIELDS file o).1).1 = _
  rw [stripNamed_spec PLATFORM_FIELDS file o pf_nodup, stripPrefixed_spec]
  show (List.filter _ (List.filter _ o)) = _
  rw [List.filter_filter]
  refine List.filter_congr ?_
  intro kv hkv
  by_cases hc : PLATFORM_FIELDS.contains kv.1 = true
  · have hm : kv.1 ∈ PLATFORM_FIELDS := by simpa using hc
    simp [isPlatformKey, hc, hm]
  · have hc' : PLATFORM_FIELDS.contains kv.1 = false := by simpa using hc
    have hm : kv.1 ∉ PLATFORM_FIELDS := by simpa using hc'
    have hmem : kv.1 ∈ (List.filter (fun kv => !PLATFORM_FIELDS.contains kv.1) o).map (fun e => e.1) :=
      List.mem_map_of_mem _ (List.mem_filter.2 ⟨hkv, by rw [hc']; rfl⟩)
    have hcontains : ((List.filter (fun kv => !PLATFORM_FIELDS.contains kv.1) o).map
        (fun e => e.1)).contains kv.1 = true := by
      simpa using hmem
    rw [hcontains, hc']
    simp [isPlatformKey, hc']
    exact fun _ => hm

theorem stripPlatformFields_snd (o : JObj) (file : String) :
    (stripPlatformFields o file).2 =
      (PLATFORM_FIELDS.filter (fun f => hasKey o f)).map (fun f => warnMsg f file)
      ++ ((o.map (fun e => e.1)).filter (fun k => strStartsWith k "_platform")).map
          (fun k => warnMsg k file) := by
  show ((stripNamed PLATFORM_FIELDS file o).2 ++ (stripPrefixed file (stripNamed PLATFORM_FIELDS file o).1).2) = _
  rw [stripNamed_spec PLATFORM_FIELDS file o pf_nodup, stripPrefixed_spec]
  show _ ++ (((List.filter (fun kv => !PLATFORM_FIELDS.contains kv.1) o).map (fun e => e.1)).filter
      (fun k => strStartsWith k "_platform")).map (fun k => warnMsg k file) = _
  rw [map_fst_filter_key o (fun k => !PLATFORM_FIELDS.contains k), List.filter_filter]
  refine congrArg _ (congrArg _ (List.filter_congr ?_))
  intro k _
  by_cases hc : PLATFORM_FIELDS.contains k = true
  · simp [hc, pf_not_prefixed k hc]
  · have hc' : PLATFORM_FIELDS.contains k = false := by simpa using hc
    rw [hc']
    simp

/-! ### Claim theorems -/

/-- Claim C3: the bundle assembler sorts records by name ascending,
case-insensitively (the output is ordered under the case-folded key),
the sort is a permutation of the input, and it is stable for records with
equal names (the subsequence of records of any fixed name keeps the
original input order); in particular records named "Charlie", "alpha",
"Bravo" come out ordered "alpha", "Bravo", "Charlie". -/
theorem sortServers_spec :
    (∀ servers : List JObj,
      (sortServers servers).Perm servers
      ∧ (sortServers servers).Pairwise (fun a b => lowerKey (nameOf a) ≤ lowerKey (nameOf b))
      ∧ (∀ n : String, (sortServers servers).filter (fun s => nameOf s == n)
          = servers.filter (fun s => nameOf s == n)))
    ∧ (sortServers [[("name", JsVal.str "Charlie")], [("name", JsVal.str "alpha")],
        [("name", JsVal.str "Bravo")]]).map nameOf = ["alpha", "Bravo", "Charlie"] := by
  constructor
  · intro servers
    refine ⟨List.perm_insertionSort nameLe servers, ?_, ?_⟩
    · have hs := List.sorted_insertionSort nameLe servers
      exact hs.imp (fun hab =>
        ((localeLe_iff _ _).1 hab).elim le_of_lt (fun he => le_of_eq he.1))
    · intro n
      refine filter_insertionSort _ (fun a b ha hb => ?_) servers
      have hna : nameOf a = n := by simpa using ha
      have hnb : nameOf b = n := by simpa using hb
      show localeLe (nameOf a) (nameOf b) = true
      rw [hna, hnb]
      exact localeLe_refl n
  · decide

/-- Claim C5: the enriched copy has `badges = ["official"]` exactly when
`publisher.official` is the boolean `true` (and empty badges otherwise),
and `hosting_type` is `"remote"` when `transport.type` is `"http"` and
`"local"` in every other case (stdio, absent or unrecognized
transport). -/
theorem enrichServer_spec (s : JObj) (now : String) :
    (objGet (enrichServer s now) "badges" = JsVal.arr [JsVal.str "official"]
      ↔ jsGet (objGet s "publisher") "official" = JsVal.bool true)
    ∧ (jsGet (objGet s "publisher") "official" ≠ JsVal.bool true →
        objGet (enrichServer s now) "badges" = JsVal.arr [])
    ∧ (jsGet (objGet s "transport") "type" = JsVal.str "http" →
        objGet (enrichServer s now) "hosting_type" = JsVal.str "remote")
    ∧ (jsGet (objGet s "transport") "type" ≠ JsVal.str "http" →
        objGet (enrichServer s now) "hosting_type" = JsVal.str "local") := by
  have hb := objGet_enrichServer_badges s now
  have hh := objGet_enrichServer_hosting s now
  refine ⟨⟨?_, ?_⟩, ?_, ?_, ?_⟩
  · intro h
    by_cases hc : (truthyV (objGet s "publisher")
        && isBoolTrue (jsGet (objGet s "publisher") "official")) = true
    · exact (truthy_official_iff _).1 hc
    · rw [hb, if_neg hc] at h
      simp at h
  · intro h
    rw [hb, if_pos ((truthy_official_iff _).2 h)]
  · intro h
    rw [hb, if_neg]
    intro hc
    exact h ((truthy_official_iff _).1 hc)
  · intro h
    have htr : truthyV (objGet s "transport") = true := type_is_obj_truthy _ _ h
    rw [hh, if_neg, if_pos]
    · rw [htr, h]
      simp [isStrEq]
    · rw [htr, h]
      simp [isStrEq]
  · intro h
    rw [hh]
    by_cases hc1 : (truthyV (objGet s "transport")
        && isStrEq (jsGet (objGet s "transport") "type") "stdio") = true
    · rw [if_pos hc1]
    · rw [if_neg hc1, if_neg]
      intro hc2
      rw [Bool.and_eq_true] at hc2
      exact h ((isStrEq_iff _ _).1 hc2.2)

/-- Claim C7: if the category store cannot be loaded, or any record file
fails to parse, the bundle build ends with exit code 1 and no bundle
value is produced (the write happens only on the `Except.ok` path). -/
theorem buildBundleMain_all_or_nothing (now : String)
    (catRes : Except String (List Category)) (files : List (Except String JObj)) :
    ((∃ e, catRes = Except.error e) → buildBundleMain now catRes files = Except.error 1)
    ∧ (∀ e, Except.error e ∈ files → buildBundleMain now catRes files = Except.error 1) := by
  constructor
  · rintro ⟨e, he⟩
    rw [he]
    rfl
  · intro e he
    cases catRes with
    | error _ => rfl
    | ok cats =>
      unfold buildBundleMain
      rw [loadAndEnrich_error now files e he]

/-- Claim C9: the bundle pipeline never sanitizes records — enrichment
preserves every top-level field other than `badges`, `hosting_type` and
`timestamps` verbatim (in particular authored `stats`, `sponsored`,
`featured` and `_platform*` fields), it overwrites those three fields
regardless of any authored value, and the bundle's server list is
exactly the sorted enrichment of the parsed inputs. -/
theorem enrichServer_frame (s : JObj) (now : String) :
    (∀ k, (k == "badges") = false → (k == "hosting_type") = false →
      (k == "timestamps") = false →
      objGet (enrichServer s now) k = objGet s k)
    ∧ (∀ v, objGet (enrichServer (objSet s "badges" v) now) "badges"
        = objGet (enrichServer s now) "badges")
    ∧ (∀ v, objGet (enrichServer (objSet s "hosting_type" v) now) "hosting_type"
        = objGet (enrichServer s now) "hosting_type")
    ∧ (∀ v, objGet (enrichServer (objSet s "timestamps" v) now) "timestamps"
        = objGet (enrichServer s now) "timestamps")
    ∧ (∀ (cats : List Category) (objs : List JObj) (b : Bundle),
        buildBundleMain now (Except.ok cats) (objs.map Except.ok) = Except.ok b →
        b.servers = sortServers (objs.map (fun d => enrichServer d now))) := by
  refine ⟨?_, ?_, ?_, ?_, ?_⟩
  · intro k h1 h2 h3
    exact objGet_enrichServer_frame s now k h1 h2 h3
  · intro v
    rw [objGet_enrichServer_badges, objGet_enrichServer_badges,
      objGet_objSet_of_ne s v (by decide)]
  · intro v
    rw [objGet_enrichServer_hosting, objGet_enrichServer_hosting,
      objGet_objSet_of_ne s v (by decide)]
  · intro v
    rw [objGet_enrichServer_timestamps, objGet_enrichServer_timestamps]
  · intro cats objs b hb
    obtain ⟨servers0, hload, hsrv, -, -, -⟩ := buildBundleMain_ok now cats _ b hb
    rw [loadAndEnrich_all_ok] at hload
    injection hload with hload'
    rw [hsrv, ← hload']

/-- Claim C10: a record whose `id` is absent or falsy (for example the
empty string) is silently skipped by the id conflict check, and likewise
for `alias`: it changes neither the mappings nor the conflict list; in
particular two records both declaring `id: ""` yield an empty conflict
list. -/
theorem falsy_tokens_skipped :
    (∀ (st : CCState) (r : SrvFile), truthy r.id = false → truthy r.aliasTok = false →
      procRecord st r = st)
    ∧ (∀ (st : CCState) (r : SrvFile), truthy r.id = false → stepId st r = st)
    ∧ (∀ (st : CCState) (r : SrvFile), truthy r.aliasTok = false → stepAlias st r = st)
    ∧ checkConflicts [⟨"e1.json", some "", none⟩, ⟨"e2.json", some "", none⟩] = [] := by
  have hid : ∀ (st : CCState) (r : SrvFile), truthy r.id = false → stepId st r = st := by
    intro st r h
    unfold stepId
    rw [idTok_none_of_falsy r h]
  have hal : ∀ (st : CCState) (r : SrvFile), truthy r.aliasTok = false → stepAlias st r = st := by
    intro st r h
    unfold stepAlias
    rw [alTok_none_of_falsy r h]
  refine ⟨?_, hid, hal, ?_⟩
  · intro st r h1 h2
    unfold procRecord
    rw [hid st r h1, hal st r h2]
  · rfl

/-- Witness for C5 at concrete records. -/
theorem enrichServer_spec_witness :
    objGet (enrichServer [("transport", JsVal.obj [("type", JsVal.str "http")])] "T0")
      "hosting_type" = JsVal.str "remote"
    ∧ objGet (enrichServer ([] : JObj) "T0") "hosting_type" = JsVal.str "local"
    ∧ objGet (enrichServer [("publisher", JsVal.obj [("official", JsVal.bool true)])] "T0")
        "badges" = JsVal.arr [JsVal.str "official"] := by
  refine ⟨?_, ?_, ?_⟩
  · exact (enrichServer_spec _ "T0").2.2.1 rfl
  · exact (enrichServer_spec _ "T0").2.2.2
      (fun h => JsVal.noConfusion (show JsVal.undef = JsVal.str "http" from h))
  · exact (enrichServer_spec _ "T0").1.2 rfl

/-- Witness for C7 at concrete inputs. -/
theorem buildBundleMain_all_or_nothing_witness :
    buildBundleMain "T0" (Except.error "nope") [] = Except.error 1
    ∧ buildBundleMain "T0" (Except.ok []) [Except.error "bad"] = Except.error 1 :=
  ⟨(buildBundleMain_all_or_nothing "T0" _ []).1 ⟨"nope", rfl⟩,
   (buildBundleMain_all_or_nothing "T0" _ _).2 "bad" (List.mem_cons_self _ _)⟩

/-- Witness for C9: an authored `stats` field passes through enrichment. -/
theorem enrichServer_frame_witness :
    objGet (enrichServer [("stats", JsVal.num 5)] "T0") "stats"
      = objGet [("stats", JsVal.num 5)] "stats" :=
  (enrichServer_frame [("stats", JsVal.num 5)] "T0").1 "stats" (by decide) (by decide) (by decide)

/-- Witness for C10 at a concrete state and record. -/
theorem falsy_tokens_skipped_witness :
    procRecord ⟨[("a", "f.json")], [], []⟩ ⟨"w.json", some "", none⟩
      = ⟨[("a", "f.json")], [], []⟩ :=
  falsy_tokens_skipped.1 _ _ rfl rfl

/-- Claim C2 (counterexample to the claim as stated): a record whose
`publisher.official` is the number 1 — truthy but not exactly the
boolean `true` — is still featured, so not every featured id belongs to
a record with `publisher.official` exactly `true`. -/
theorem featuredIds_strict_cex :
    featuredIds [[("id", JsVal.str "s1"),
        ("publisher", JsVal.obj [("official", JsVal.num 1), ("verified", JsVal.bool true)])]]
      = [JsVal.str "s1"]
    ∧ ¬ jsGet (objGet [("id", JsVal.str "s1"),
          ("publisher", JsVal.obj [("official", JsVal.num 1), ("verified", JsVal.bool true)])]
          "publisher") "official" = JsVal.bool true := by
  refine ⟨rfl, fun h => ?_⟩
  exact JsVal.noConfusion (show JsVal.num 1 = JsVal.bool true from h)

/-- Claim C2 (amended): `featured_server_ids` has length at most 6, lists
ids in the already-sorted record order (it is a sublist of the sorted id
sequence), and every entry belongs to a record whose `publisher`,
`publisher.official` and `publisher.verified` are all JavaScript-truthy —
truthiness, not `=== true`, is what the code tests. -/
theorem featuredIds_spec (servers : List JObj) :
    (featuredIds servers).length ≤ 6
    ∧ (featuredIds servers).Sublist (servers.map (fun s => objGet s "id"))
    ∧ (∀ v ∈ featuredIds servers, ∃ s ∈ servers, objGet s "id" = v
        ∧ truthyV (objGet s "publisher") = true
        ∧ truthyV (jsGet (objGet s "publisher") "official") = true
        ∧ truthyV (jsGet (objGet s "publisher") "verified") = true)
    ∧ (∀ (now : String) (cats : List Category) (files : List (Except String JObj)) (b : Bundle),
        buildBundleMain now (Except.ok cats) files = Except.ok b →
        b.featuredServerIds = featuredIds b.servers) := by
  refine ⟨?_, ?_, ?_, ?_⟩
  · unfold featuredIds
    rw [List.length_map, List.length_take]
    exact min_le_left _ _
  · unfold featuredIds
    exact (((List.take_sublist 6 _).trans (List.filter_sublist servers)).map _)
  · intro v hv
    unfold featuredIds at hv
    rw [List.mem_map] at hv
    obtain ⟨s, hs, rfl⟩ := hv
    have hs2 : s ∈ servers.filter
        (fun s =>
          truthyV (objGet s "publisher") &&
            truthyV (jsGet (objGet s "publisher") "official") &&
            truthyV (jsGet (objGet s "publisher") "verified")) :=
      (List.take_sublist 6 _).subset hs
    rw [List.mem_filter] at hs2
    obtain ⟨hmem, hp⟩ := hs2
    rw [Bool.and_eq_true, Bool.and_eq_true] at hp
    exact ⟨s, hmem, rfl, hp.1.1, hp.1.2, hp.2⟩
  · intro now cats files b hb
    obtain ⟨servers0, -, hsrv, hfeat, -, -⟩ := buildBundleMain_ok now cats files b hb
    rw [hfeat, hsrv]

/-- Witness for the amended C2 at a concrete record. -/
theorem featuredIds_spec_witness :
    ∃ s ∈ ([[("id", JsVal.str "w1"),
        ("publisher", JsVal.obj [("official", JsVal.bool true), ("verified", JsVal.bool true)])]]
        : List JObj),
      objGet s "id" = JsVal.str "w1"
      ∧ truthyV (objGet s "publisher") = true
      ∧ truthyV (jsGet (objGet s "publisher") "official") = true
      ∧ truthyV (jsGet (objGet s "publisher") "verified") = true :=
  (featuredIds_spec _).2.2.1 (JsVal.str "w1") (List.mem_singleton_self _)

/-- Claim C4: sanitization removes exactly the reserved fields (`badges`,
`stats`, `sponsored`, `featured`) and every `_platform`-prefixed
top-level field, emits one warning per removed field, each warning names
a removed field, and a record containing none of these fields is
returned unchanged with zero warnings. -/
theorem stripPlatformFields_spec (o : JObj) (file : String) :
    (stripPlatformFields o file).1 = o.filter (fun kv => !(isPlatformKey kv.1))
    ∧ ((o.map (fun e => e.1)).Nodup →
        (stripPlatformFields o file).2.length = o.countP (fun kv => isPlatformKey kv.1))
    ∧ (∀ w ∈ (stripPlatformFields o file).2, ∃ k, isPlatformKey k = true ∧ w = warnMsg k file)
    ∧ ((∀ kv ∈ o, isPlatformKey kv.1 = false) → stripPlatformFields o file = (o, [])) := by
  refine ⟨stripPlatformFields_fst o file, ?_, ?_, ?_⟩
  · intro hnd
    rw [stripPlatformFields_snd, List.length_append, List.length_map, List.length_map,
      length_filter_fields PLATFORM_FIELDS o pf_nodup hnd]
    have h2 : (((o.map (fun e => e.1)).filter (fun k => strStartsWith k "_platform")).length)
        = o.countP (fun kv => strStartsWith kv.1 "_platform") := by
      rw [← List.countP_eq_length_filter, List.countP_map]
      rfl
    have hsplit : o.countP (fun kv => isPlatformKey kv.1)
        = o.countP (fun kv => PLATFORM_FIELDS.contains kv.1)
          + o.countP (fun kv => strStartsWith kv.1 "_platform") := by
      rw [show (fun kv : String × JsVal => isPlatformKey kv.1)
          = (fun kv : String × JsVal => PLATFORM_FIELDS.contains kv.1
              || strStartsWith kv.1 "_platform") from funext (fun kv => rfl)]
      refine countP_or_disjoint _ _ o ?_
      rintro kv _ ⟨h1, hp⟩
      rw [pf_not_prefixed kv.1 h1] at hp
      simp at hp
    rw [h2, hsplit]
  · intro w hw
    rw [stripPlatformFields_snd, List.mem_append] at hw
    rcases hw with hw | hw
    · rw [List.mem_map] at hw
      obtain ⟨f, hf, rfl⟩ := hw
      rw [List.mem_filter] at hf
      refine ⟨f, ?_, rfl⟩
      simp only [isPlatformKey, Bool.or_eq_true]
      left
      simpa using hf.1
    · rw [List.mem_map] at hw
      obtain ⟨k, hk, rfl⟩ := hw
      rw [List.mem_filter] at hk
      exact ⟨k, by simp [isPlatformKey, hk.2], rfl⟩
  · intro hnone
    rw [Prod.ext_iff]
    constructor
    · rw [stripPlatformFields_fst o file]
      refine List.filter_eq_self.2 ?_
      intro kv hkv
      rw [hnone kv hkv]
      rfl
    · rw [stripPlatformFields_snd]
      have h1 : PLATFORM_FIELDS.filter (fun f => hasKey o f) = [] := by
        refine List.filter_eq_nil_iff.2 ?_
        intro f hf hkf
        simp only [hasKey, List.any_eq_true] at hkf
        obtain ⟨kv, hkv, he⟩ := hkf
        have he' : kv.1 = f := by simpa using he
        have : isPlatformKey kv.1 = true := by
          simp only [isPlatformKey, Bool.or_eq_true]
          left
          rw [he']
          simpa using hf
        rw [hnone kv hkv] at this
        simp at this
      have h2 : (o.map (fun e => e.1)).filter (fun k => strStartsWith k "_platform") = [] := by
        refine List.filter_eq_nil_iff.2 ?_
        intro k hk hpk
        rw [List.mem_map] at hk
        obtain ⟨kv, hkv, rfl⟩ := hk
        have : isPlatformKey kv.1 = true := by simp [isPlatformKey, hpk]
        rw [hnone kv hkv] at this
        simp at this
      rw [h1, h2]
      rfl

/-- Witness for C4 at concrete records. -/
theorem stripPlatformFields_spec_witness :
    (stripPlatformFields [("stats", JsVal.num 3), ("keep", JsVal.str "v")] "w.json").2.length
      = List.countP (fun kv => isPlatformKey kv.1)
          [("stats", JsVal.num 3), ("keep", JsVal.str "v")]
    ∧ stripPlatformFields [("keep", JsVal.str "v")] "w.json" = ([("keep", JsVal.str "v")], []) :=
  ⟨(stripPlatformFields_spec _ "w.json").2.1 (by decide),
   (stripPlatformFields_spec _ "w.json").2.2.2 (by decide)⟩

/-- Claim C8: every option of the bundle's category filter other than the
fixed leading `all` option has an id that appears in the `categories`
list of at least one record; a category referenced by zero records never
becomes a filter option. -/
theorem categoryFilter_options_used (servers : List JObj) (cats : List Category) :
    (∀ o ∈ (categoryFilterOptions servers cats).drop 1,
      ∃ s ∈ servers, JsVal.str o.id ∈ catEntries s)
    ∧ (∀ (now : String) (files : List (Except String JObj)) (b : Bundle),
        buildBundleMain now (Except.ok cats) files = Except.ok b →
        ∀ f ∈ b.filters, f.id = "category" →
        ∀ o ∈ f.options.drop 1, ∃ s ∈ b.servers, JsVal.str o.id ∈ catEntries s) := by
  have main : ∀ (srv : List JObj) (o : FilterOption),
      o ∈ (categoryFilterOptions srv cats).drop 1 →
      ∃ s ∈ srv, JsVal.str o.id ∈ catEntries s := by
    intro srv o ho
    have ho' : o ∈ (cats.filter (fun c => (usedCategories srv).contains c.id)).map
        (fun c =>
          { id := c.id
            label := c.name
            icon := some c.icon
            matchRule := some { field := "categories", operator := "contains", value := JsVal.str c.id } }) := by
      simpa [categoryFilterOptions] using ho
    rw [List.mem_map] at ho'
    obtain ⟨c, hc, rfl⟩ := ho'
    rw [List.mem_filter] at hc
    have hused : c.id ∈ usedCategories srv := by simpa using hc.2
    obtain ⟨s, hs, hcat⟩ := (usedCategories_mem srv c.id).1 hused
    exact ⟨s, hs, hcat⟩
  refine ⟨main servers, ?_⟩
  intro now files b hb f hf hfid o ho
  obtain ⟨servers0, -, hsrv, -, hfil, -⟩ := buildBundleMain_ok now cats files b hb
  rw [hfil] at hf
  rcases List.mem_cons.1 hf with he | hf2
  · rw [hsrv]
    refine main (sortServers servers0) o ?_
    rw [he] at ho
    exact ho
  · exfalso
    rcases List.mem_cons.1 hf2 with he | hf3
    · rw [he] at hfid
      exact absurd hfid (by decide)
    · rcases List.mem_cons.1 hf3 with he | hf4
      · rw [he] at hfid
        exact absurd hfid (by decide)
      · rcases List.mem_cons.1 hf4 with he | hf5
        · rw [he] at hfid
          exact absurd hfid (by decide)
        · cases hf5

/-- Witness for C8 at a concrete record set and category store (category
"unused" is referenced by no record and produces no option). -/
theorem categoryFilter_options_used_witness :
    ∃ s ∈ ([[("categories", JsVal.arr [JsVal.str "tools"])]] : List JObj),
      JsVal.str "tools" ∈ catEntries s := by
  have hdrop : (categoryFilterOptions [[("categories", JsVal.arr [JsVal.str "tools"])]]
      [⟨"tools", "Tools", "i1"⟩, ⟨"unused", "Unused", "i2"⟩]).drop 1
      = [{ id := "tools", label := "Tools", icon := some "i1",
           matchRule := some { field := "categories", operator := "contains", value := JsVal.str "tools" } }] := rfl
  exact (categoryFilter_options_used _ _).1 _ (by rw [hdrop]; exact List.mem_singleton_self _)

/-- Claim C1 (counterexample to the claim as stated): with one record
declaring `id: "x"` and two records declaring `alias: "x"`, the forward
order reports 3 conflicts while the reversed order reports only 2 — the
conflict set of `checkConflicts` is not invariant under permutation of
the input. -/
theorem conflict_order_dependent_cex :
    (checkConflicts [⟨"fa.json", some "x", none⟩, ⟨"fb.json", none, some "x"⟩,
        ⟨"fc.json", none, some "x"⟩]).length = 3
    ∧ (checkConflicts [⟨"fc.json", none, some "x"⟩, ⟨"fb.json", none, some "x"⟩,
        ⟨"fa.json", some "x", none⟩]).length = 2
    ∧ ([⟨"fc.json", none, some "x"⟩, ⟨"fb.json", none, some "x"⟩,
        ⟨"fa.json", some "x", none⟩] : List SrvFile)
      = ([⟨"fa.json", some "x", none⟩, ⟨"fb.json", none, some "x"⟩,
          ⟨"fc.json", none, some "x"⟩] : List SrvFile).reverse := by
  refine ⟨?_, ?_, ?_⟩ <;> decide

/-- Claim C1 (amended): per token, the number of duplicate-id conflicts is
the number of records declaring that id minus one, and likewise for
duplicate aliases — both order-invariant; an id-alias collision is
reported exactly once when exactly one record declares the token as an
id and exactly one as an alias (in particular for any single colliding
pair, in either order), and never when one side is absent.  Under a
permutation of the input the duplicate counts are always preserved, and
the collision count is preserved whenever the token is declared at most
once as an id and at most once as an alias; the counterexample shows it
is not preserved beyond that. -/
theorem conflict_counts_per_token (l : List SrvFile) (t : String) :
    cntKT (checkConflicts l) ConflictKind.dupId t = countId l t - 1
    ∧ cntKT (checkConflicts l) ConflictKind.dupAlias t = countAl l t - 1
    ∧ (countId l t = 0 ∨ countAl l t = 0 →
        cntKT (checkConflicts l) ConflictKind.idAlias t = 0)
    ∧ (countId l t = 1 → countAl l t = 1 →
        cntKT (checkConflicts l) ConflictKind.idAlias t = 1)
    ∧ (∀ l', l.Perm l' →
        cntKT (checkConflicts l') ConflictKind.dupId t
            = cntKT (checkConflicts l) ConflictKind.dupId t
        ∧ cntKT (checkConflicts l') ConflictKind.dupAlias t
            = cntKT (checkConflicts l) ConflictKind.dupAlias t
        ∧ (countId l t ≤ 1 → countAl l t ≤ 1 →
            cntKT (checkConflicts l') ConflictKind.idAlias t
              = cntKT (checkConflicts l) ConflictKind.idAlias t)) := by
  have hdup : ∀ m : List SrvFile,
      cntKT (checkConflicts m) ConflictKind.dupId t = countId m t - 1 := by
    intro m
    have h := cnt_dupId_runCC m initCC t
    rw [show mapHas initCC.ids t = false from rfl] at h
    simpa [checkConflicts, initCC, cntKT_nil] using h
  have hdupAl : ∀ m : List SrvFile,
      cntKT (checkConflicts m) ConflictKind.dupAlias t = countAl m t - 1 := by
    intro m
    have h := cnt_dupAlias_runCC m initCC t
    rw [show mapHas initCC.aliases t = false from rfl] at h
    simpa [checkConflicts, initCC, cntKT_nil] using h
  have hzero : ∀ m : List SrvFile, countId m t = 0 ∨ countAl m t = 0 →
      cntKT (checkConflicts m) ConflictKind.idAlias t = 0 := by
    rintro m (hc | hc)
    · have h := cnt_idAlias_runCC_noId m initCC t hc rfl
      simpa [checkConflicts, initCC, cntKT_nil] using h
    · have h := cnt_idAlias_runCC_noAlias m initCC t hc rfl
      simpa [checkConflicts, initCC, cntKT_nil] using h
  have hone : ∀ m : List SrvFile, countId m t = 1 → countAl m t = 1 →
      cntKT (checkConflicts m) ConflictKind.idAlias t = 1 := by
    intro m hci hca
    have h := cnt_idAlias_runCC_oneOne m initCC t hci hca rfl rfl
    simpa [checkConflicts, initCC, cntKT_nil] using h
  refine ⟨hdup l, hdupAl l, hzero l, hone l, ?_⟩
  intro l' hp
  have hci : countId l' t = countId l t := (List.Perm.countP_eq _ hp).symm
  have hca : countAl l' t = countAl l t := (List.Perm.countP_eq _ hp).symm
  refine ⟨?_, ?_, ?_⟩
  · rw [hdup l', hdup l, hci]
  · rw [hdupAl l', hdupAl l, hca]
  · intro h1 h2
    have c1 : countId l t = 0 ∨ countId l t = 1 := by omega
    rcases c1 with c1 | c1
    · rw [hzero l (Or.inl c1), hzero l' (Or.inl (by rw [hci, c1]))]
    · have c2 : countAl l t = 0 ∨ countAl l t = 1 := by omega
      rcases c2 with c2 | c2
      · rw [hzero l (Or.inr c2), hzero l' (Or.inr (by rw [hca, c2]))]
      · rw [hone l c1 c2, hone l' (by rw [hci, c1]) (by rw [hca, c2])]

/-- Witness for the amended C1 at a concrete colliding pair, in both
orders. -/
theorem conflict_counts_per_token_witness :
    cntKT (checkConflicts [⟨"wa.json", some "w", none⟩, ⟨"wb.json", none, some "w"⟩])
        ConflictKind.idAlias "w" = 1
    ∧ cntKT (checkConflicts [⟨"wb.json", none, some "w"⟩, ⟨"wa.json", some "w", none⟩])
        ConflictKind.idAlias "w" = 1 := by
  have base := conflict_counts_per_token
    [⟨"wa.json", some "w", none⟩, ⟨"wb.json", none, some "w"⟩] "w"
  refine ⟨base.2.2.2.1 (by decide) (by decide), ?_⟩
  have hstep := (base.2.2.2.2 [⟨"wb.json", none, some "w"⟩, ⟨"wa.json", some "w", none⟩]
    (by decide)).2.2 (by decide) (by decide)
  rw [hstep]
  exact base.2.2.2.1 (by decide) (by decide)

theorem kindBeq_dd : (ConflictKind.dupId == ConflictKind.dupId) = true := rfl

theorem kindBeq_ad : (ConflictKind.dupAlias == ConflictKind.dupId) = false := rfl

theorem kindBeq_id : (ConflictKind.idAlias == ConflictKind.dupId) = false := rfl

theorem kindBeq_di : (ConflictKind.dupId == ConflictKind.idAlias) = false := rfl

theorem kindBeq_ai : (ConflictKind.dupAlias == ConflictKind.idAlias) = false := rfl

theorem kindBeq_ii : (ConflictKind.idAlias == ConflictKind.idAlias) = true := rfl

/-- Claim C6: a record set of exactly two colliding records produces
exactly one conflict of the appropriate kind referencing both files,
regardless of processing order: two records with the same truthy id give
exactly one duplicate-id conflict (the universal quantification over the
pair covers both orders), and a record declaring `id: t` with another
declaring `alias: t` (with no further occurrence of the token) gives
exactly one id-alias-collision conflict in either order, naming both
files. -/
theorem pair_conflict_spec (A B : SrvFile) (t : String) :
    (idTok A = some t → idTok B = some t →
      filterKT (checkConflicts [A, B]) ConflictKind.dupId t
        = [⟨ConflictKind.dupId, t, B.file, A.file⟩])
    ∧ (idTok A = some t → alTok B = some t → idTok B ≠ some t → alTok A ≠ some t →
        filterKT (checkConflicts [A, B]) ConflictKind.idAlias t
          = [⟨ConflictKind.idAlias, t, B.file, A.file⟩]
        ∧ filterKT (checkConflicts [B, A]) ConflictKind.idAlias t
          = [⟨ConflictKind.idAlias, t, A.file, B.file⟩]) := by
  constructor
  · intro hA hB
    rw [checkConflicts_pair, procRecord_conflicts, procRecord_conflicts]
    cases hA2 : alTok A with
    | none =>
      cases hB2 : alTok B with
      | none =>
        simp [hA, hB, hA2, hB2, procRecord_ids, stepId_ids, filterKT_append, filterKT_ite,
          filterKT_single, filterKT_nil2, initCC, mapHas, mapGet_cons_head,
          kindBeq_dd, kindBeq_ad, kindBeq_id] <;>
        (split_ifs <;>
          simp_all [filterKT, List.filter_cons, List.filter_append, kindBeq_dd, kindBeq_ad,
            kindBeq_id, kindBeq_di, kindBeq_ai, kindBeq_ii])
      | some b =>
        simp [hA, hB, hA2, hB2, procRecord_ids, stepId_ids, filterKT_append, filterKT_ite,
          filterKT_single, filterKT_nil2, initCC, mapHas, mapGet_cons_head,
          kindBeq_dd, kindBeq_ad, kindBeq_id] <;>
        (split_ifs <;>
          simp_all [filterKT, List.filter_cons, List.filter_append, kindBeq_dd, kindBeq_ad,
            kindBeq_id, kindBeq_di, kindBeq_ai, kindBeq_ii])
    | some a =>
      cases hB2 : alTok B with
      | none =>
        simp [hA, hB, hA2, hB2, procRecord_ids, stepId_ids, filterKT_append, filterKT_ite,
          filterKT_single, filterKT_nil2, initCC, mapHas, mapGet_cons_head,
          kindBeq_dd, kindBeq_ad, kindBeq_id] <;>
        (split_ifs <;>
          simp_all [filterKT, List.filter_cons, List.filter_append, kindBeq_dd, kindBeq_ad,
            kindBeq_id, kindBeq_di, kindBeq_ai, kindBeq_ii])
      | some b =>
        simp [hA, hB, hA2, hB2, procRecord_ids, stepId_ids, filterKT_append, filterKT_ite,
          filterKT_single, filterKT_nil2, initCC, mapHas, mapGet_cons_head,
          kindBeq_dd, kindBeq_ad, kindBeq_id] <;>
        (split_ifs <;>
          simp_all [filterKT, List.filter_cons, List.filter_append, kindBeq_dd, kindBeq_ad,
            kindBeq_id, kindBeq_di, kindBeq_ai, kindBeq_ii])
  · intro hA hB hBi hAa
    constructor
    · rw [checkConflicts_pair, procRecord_conflicts, procRecord_conflicts]
      cases hA2 : alTok A with
      | none =>
        cases hB2 : idTok B with
        | none =>
          simp [hA, hB, hA2, hB2, procRecord_ids, procRecord_aliases, stepId_ids,
            filterKT_append, filterKT_ite, filterKT_single, filterKT_nil2, initCC, mapHas,
            mapGet_cons_head, kindBeq_di, kindBeq_ai, kindBeq_ii]
        | some b =>
          have hbt : (b == t) = false := by
            simp only [beq_eq_false_iff_ne]
            intro e
            exact hBi (by rw [hB2, e])
          have htb : (t == b) = false := beq_false_symm hbt
          simp [hA, hB, hA2, hB2, procRecord_ids, procRecord_aliases, stepId_ids,
            filterKT_append, filterKT_ite, filterKT_single, filterKT_nil2, initCC, mapHas,
            mapGet_cons_head, kindBeq_di, kindBeq_ai, kindBeq_ii, hbt, htb]
      | some a =>
        have hat : (a == t) = false := by
          simp only [beq_eq_false_iff_ne]
          intro e
          exact hAa (by rw [hA2, e])
        have hta : (t == a) = false := beq_false_symm hat
        cases hB2 : idTok B with
        | none =>
          simp [hA, hB, hA2, hB2, procRecord_ids, procRecord_aliases, stepId_ids,
            filterKT_append, filterKT_ite, filterKT_single, filterKT_nil2, initCC, mapHas,
            mapGet_cons_head, kindBeq_di, kindBeq_ai, kindBeq_ii, hat, hta]
        | some b =>
          have hbt : (b == t) = false := by
            simp only [beq_eq_false_iff_ne]
            intro e
            exact hBi (by rw [hB2, e])
          have htb : (t == b) = false := beq_false_symm hbt
          simp [hA, hB, hA2, hB2, procRecord_ids, procRecord_aliases, stepId_ids,
            filterKT_append, filterKT_ite, filterKT_single, filterKT_nil2, initCC, mapHas,
            mapGet_cons_head, kindBeq_di, kindBeq_ai, kindBeq_ii, hat, hta, hbt, htb] <;>
          (split_ifs <;>
            simp_all [filterKT, List.filter_cons, List.filter_append, kindBeq_dd, kindBeq_ad,
              kindBeq_id, kindBeq_di, kindBeq_ai, kindBeq_ii])
    · rw [checkConflicts_pair, procRecord_conflicts, procRecord_conflicts]
      cases hA2 : alTok A with
      | none =>
        cases hB2 : idTok B with
        | none =>
          simp [hA, hB, hA2, hB2, procRecord_ids, procRecord_aliases, stepId_ids,
            filterKT_append, filterKT_ite, filterKT_single, filterKT_nil2, initCC, mapHas,
            mapGet_cons_head, kindBeq_di, kindBeq_ai, kindBeq_ii]
        | some b =>
          have hbt : (b == t) = false := by
            simp only [beq_eq_false_iff_ne]
            intro e
            exact hBi (by rw [hB2, e])
          have htb : (t == b) = false := beq_false_symm hbt
          simp [hA, hB, hA2, hB2, procRecord_ids, procRecord_aliases, stepId_ids,
            filterKT_append, filterKT_ite, filterKT_single, filterKT_nil2, initCC, mapHas,
            mapGet_cons_head, kindBeq_di, kindBeq_ai, kindBeq_ii, hbt, htb]
      | some a =>
        have hat : (a == t) = false := by
          simp only [beq_eq_false_iff_ne]
          intro e
          exact hAa (by rw [hA2, e])
        have hta : (t == a) = false := beq_false_symm hat
        cases hB2 : idTok B with
        | none =>
          simp [hA, hB, hA2, hB2, procRecord_ids, procRecord_aliases, stepId_ids,
            filterKT_append, filterKT_ite, filterKT_single, filterKT_nil2, initCC, mapHas,
            mapGet_cons_head, kindBeq_di, kindBeq_ai, kindBeq_ii, hat, hta]
        | some b =>
          have hbt : (b == t) = false := by
            simp only [beq_eq_false_iff_ne]
            intro e
            exact hBi (by rw [hB2, e])
          have htb : (t == b) = false := beq_false_symm hbt
          simp [hA, hB, hA2, hB2, procRecord_ids, procRecord_aliases, stepId_ids,
            filterKT_append, filterKT_ite, filterKT_single, filterKT_nil2, initCC, mapHas,
            mapGet_cons_head, kindBeq_di, kindBeq_ai, kindBeq_ii, hat, hta, hbt, htb] <;>
          (split_ifs <;>
            simp_all [filterKT, List.filter_cons, List.filter_append, kindBeq_dd, kindBeq_ad,
              kindBeq_id, kindBeq_di, kindBeq_ai, kindBeq_ii])

/-- Witness for C6 at concrete pairs. -/
theorem pair_conflict_spec_witness :
    filterKT (checkConflicts [⟨"p1.json", some "x", none⟩, ⟨"p2.json", some "x", none⟩])
        ConflictKind.dupId "x"
      = [⟨ConflictKind.dupId, "x", "p2.json", "p1.json"⟩]
    ∧ filterKT (checkConflicts [⟨"p1.json", some "x", none⟩, ⟨"p3.json", none, some "x"⟩])
        ConflictKind.idAlias "x"
      = [⟨ConflictKind.idAlias, "x", "p3.json", "p1.json"⟩] := by
  constructor
  · exact (pair_conflict_spec ⟨"p1.json", some "x", none⟩ ⟨"p2.json", some "x", none⟩ "x").1
      rfl rfl
  · exact ((pair_conflict_spec ⟨"p1.json", some "x", none⟩ ⟨"p3.json", none, some "x"⟩ "x").2
      rfl rfl (by decide) (by decide)).1

end McpServers
